import Mathlib

/-!
Verification development for the `tdraw-tools` headless drawing engine
(`packages/core/src`).  The TypeScript sources are embedded shallowly:

* JavaScript numbers are modelled as exact rationals.  To keep every
  definition kernel-computable they are represented as integer fractions
  `num / den` with positive denominator (type `Co`); arithmetic is exact
  rational arithmetic and comparisons are by cross-multiplication.
  A comparison `Math.hypot dx dy ≤ tol` is embedded as
  `0 ≤ tol ∧ dx*dx + dy*dy ≤ tol*tol`, which is equivalent because `hypot`
  is non-negative and squaring is monotone on non-negatives;
* `Date.now()` and `nanoid()` are ambient effects in the source; here every
  operation takes the produced timestamp / fresh ids as explicit arguments;
* JavaScript `Map` (insertion ordered) is a `List` keyed by `id`, JavaScript
  `Set` (insertion ordered) is a duplicate-free `List`;
* `Array.prototype.sort` with comparator `a.zIndex - b.zIndex` is a stable
  ascending sort, embedded with `List.insertionSort` (stable, and
  kernel-computable unlike `List.mergeSort`);
* deep clones (`cloneEntity`/`cloneEntities`) are the identity on immutable
  values; the open `metadata` bag and `groupId` are never read or written by
  any modelled operation and are omitted from the entity record.
-/

/-! ## Computable exact rationals -/

/-- An exact rational `num / den`; every value built by the operations below
has `0 < den`. -/
structure Co where
  num : Int
  den : Int
deriving DecidableEq, Repr

instance (n : Nat) : OfNat Co n := ⟨⟨n, 1⟩⟩

instance : Neg Co := ⟨fun a => ⟨-a.num, a.den⟩⟩

instance : Add Co := ⟨fun a b => ⟨a.num * b.den + b.num * a.den, a.den * b.den⟩⟩

instance : Sub Co := ⟨fun a b => ⟨a.num * b.den - b.num * a.den, a.den * b.den⟩⟩

instance : Mul Co := ⟨fun a b => ⟨a.num * b.num, a.den * b.den⟩⟩

/-- Reciprocal; `0` maps to `0` (division by zero never happens on the
modelled code paths: every divisor is bounded below by `EPS`). -/
def Co.inv (a : Co) : Co :=
  if a.num = 0 then ⟨0, 1⟩
  else if a.num < 0 then ⟨-a.den, -a.num⟩
  else ⟨a.den, a.num⟩

instance : Div Co := ⟨fun a b => a * b.inv⟩

/-- Value comparison `a ≤ b` (cross-multiplication; denominators positive). -/
def Co.le (a b : Co) : Bool := a.num * b.den ≤ b.num * a.den

/-- Value comparison `a < b`. -/
def Co.lt (a b : Co) : Bool := a.num * b.den < b.num * a.den

/-- `Math.max` on two numbers. -/
def Co.max (a b : Co) : Co := if Co.le a b then b else a

/-- `Math.min` on two numbers. -/
def Co.min (a b : Co) : Co := if Co.le a b then a else b

/-- Floor to an integer (denominator positive). -/
def Co.floor (a : Co) : Int := Int.fdiv a.num a.den

/-- One half. -/
def Co.half : Co := ⟨1, 2⟩

/-- `Math.round`: JavaScript rounds half toward positive infinity, i.e.
`⌊x + 1/2⌋`. -/
def jsRound (q : Co) : Co := ⟨Co.floor (q + Co.half), 1⟩

/-! ## Data model (`types.ts`) -/

/-- A chart-space point: logical index and price (`DrawingPoint`). -/
structure DrawingPoint where
  logical : Co
  price : Co
deriving DecidableEq, Repr

/-- Viewport scale factors (`EngineViewport`). -/
structure EngineViewport where
  logicalPerPixel : Co
  pricePerPixel : Co
deriving DecidableEq, Repr

/-- Line style variants (`DrawingLineStyle`). -/
inductive DrawingLineStyle
  | solid
  | dashed
  | dotted
deriving DecidableEq, Repr

/-- Entity style (`DrawingStyle`). -/
structure DrawingStyle where
  strokeColor : String
  fillColor : String
  textColor : String
  lineWidth : Co
  lineStyle : DrawingLineStyle
  opacity : Co
  showLabel : Bool
deriving DecidableEq, Repr

/-- A drawn entity (`DrawingEntity`).  `metadata` and `groupId` are omitted:
no modelled operation reads or writes them. -/
structure DrawingEntity where
  id : String
  tool : String
  points : List DrawingPoint
  style : DrawingStyle
  text : Option String := none
  visible : Bool := true
  locked : Bool := false
  zIndex : Int := 0
  createdAt : Int := 0
  updatedAt : Int := 0
deriving DecidableEq, Repr

/-! ## Geometry (`geometry.ts`) -/

/-- Model-space bounding box (`ModelBBox`). -/
structure ModelBBox where
  minLogical : Co
  maxLogical : Co
  minPrice : Co
  maxPrice : Co
deriving DecidableEq, Repr

/-- Hit kind of a hit-test result. -/
inductive HitKind
  | body
  | handle
deriving DecidableEq, Repr

/-- Hit-test result (`HitTestResult`). -/
structure HitTestResult where
  kind : HitKind
  handleIndex : Option Nat := none
deriving DecidableEq, Repr

/-- The `EPS = 1e-9` constant of `geometry.ts`. -/
def EPS : Co := ⟨1, 1000000000⟩

/-- `normalizeBBox` from `geometry.ts`. -/
def normalizeBBox (bbox : ModelBBox) : ModelBBox :=
  { minLogical := Co.min bbox.minLogical bbox.maxLogical
    maxLogical := Co.max bbox.minLogical bbox.maxLogical
    minPrice := Co.min bbox.minPrice bbox.maxPrice
    maxPrice := Co.max bbox.minPrice bbox.maxPrice }

/-- `bboxFromPoints` from `geometry.ts`: fold min/max over all points starting
from the first point; the empty list yields the zero box. -/
def bboxFromPoints : List DrawingPoint → ModelBBox
  | [] => ⟨0, 0, 0, 0⟩
  | first :: rest =>
    (first :: rest).foldl
      (fun acc p =>
        ⟨Co.min acc.minLogical p.logical, Co.max acc.maxLogical p.logical,
          Co.min acc.minPrice p.price, Co.max acc.maxPrice p.price⟩)
      ⟨first.logical, first.logical, first.price, first.price⟩

/-- `expandBBoxByPixels` from `geometry.ts`. -/
def expandBBoxByPixels (bbox : ModelBBox) (viewport : EngineViewport) (pixels : Co) : ModelBBox :=
  let logicalPadding := Co.max (viewport.logicalPerPixel * pixels) EPS
  let pricePadding := Co.max (viewport.pricePerPixel * pixels) EPS
  { minLogical := bbox.minLogical - logicalPadding
    maxLogical := bbox.maxLogical + logicalPadding
    minPrice := bbox.minPrice - pricePadding
    maxPrice := bbox.maxPrice + pricePadding }

/-- `translatePoint` from `geometry.ts`. -/
def translatePoint (point delta : DrawingPoint) : DrawingPoint :=
  ⟨point.logical + delta.logical, point.price + delta.price⟩

/-- `distPointPx a b viewport ≤ px`, embedded via squares: with the
pixel-space deltas of `distPointPx`, `Math.hypot dx dy ≤ px` iff `0 ≤ px` and
`dx*dx + dy*dy ≤ px*px`. -/
def distLePx (a b : DrawingPoint) (viewport : EngineViewport) (px : Co) : Bool :=
  let dx := (a.logical - b.logical) / Co.max viewport.logicalPerPixel EPS
  let dy := (a.price - b.price) / Co.max viewport.pricePerPixel EPS
  Co.le 0 px && Co.le (dx * dx + dy * dy) (px * px)

/-- `clamp` from `geometry.ts` (`Math.max min (Math.min max value)`). -/
def clamp (value lo hi : Co) : Co := Co.max lo (Co.min hi value)

/-- `segmentDistancePx p a b viewport ≤ tol`, embedded via `distLePx`. -/
def segmentDistLePx (p a b : DrawingPoint) (viewport : EngineViewport) (tol : Co) : Bool :=
  let dx := b.logical - a.logical
  let dy := b.price - a.price
  let denom := dx * dx + dy * dy
  if Co.lt denom EPS then distLePx p a viewport tol
  else
    let t := clamp (((p.logical - a.logical) * dx + (p.price - a.price) * dy) / denom) 0 1
    distLePx p ⟨a.logical + t * dx, a.price + t * dy⟩ viewport tol

/-- `rayDistancePx p a b viewport ≤ tol`, embedded via `distLePx`. -/
def rayDistLePx (p a b : DrawingPoint) (viewport : EngineViewport) (tol : Co) : Bool :=
  let dx := b.logical - a.logical
  let dy := b.price - a.price
  let denom := dx * dx + dy * dy
  if Co.lt denom EPS then distLePx p a viewport tol
  else
    let t := Co.max (((p.logical - a.logical) * dx + (p.price - a.price) * dy) / denom) 0
    distLePx p ⟨a.logical + t * dx, a.price + t * dy⟩ viewport tol

/-- `lineDistancePx p a b viewport ≤ tol`, embedded via `distLePx`. -/
def lineDistLePx (p a b : DrawingPoint) (viewport : EngineViewport) (tol : Co) : Bool :=
  let dx := b.logical - a.logical
  let dy := b.price - a.price
  let denom := dx * dx + dy * dy
  if Co.lt denom EPS then distLePx p a viewport tol
  else
    let t := ((p.logical - a.logical) * dx + (p.price - a.price) * dy) / denom
    distLePx p ⟨a.logical + t * dx, a.price + t * dy⟩ viewport tol

/-- `nearRectEdge` from `geometry.ts`. -/
def nearRectEdge (p a b : DrawingPoint) (viewport : EngineViewport) (tol : Co) : Bool :=
  let minLogical := Co.min a.logical b.logical
  let maxLogical := Co.max a.logical b.logical
  let minPrice := Co.min a.price b.price
  let maxPrice := Co.max a.price b.price
  segmentDistLePx p ⟨minLogical, minPrice⟩ ⟨minLogical, maxPrice⟩ viewport tol ||
  segmentDistLePx p ⟨maxLogical, minPrice⟩ ⟨maxLogical, maxPrice⟩ viewport tol ||
  segmentDistLePx p ⟨minLogical, maxPrice⟩ ⟨maxLogical, maxPrice⟩ viewport tol ||
  segmentDistLePx p ⟨minLogical, minPrice⟩ ⟨maxLogical, minPrice⟩ viewport tol

/-- `isLineTool` from `geometry.ts`. -/
def isLineTool (tool : String) : Bool :=
  tool = "trend_line" || tool = "arrow" || tool = "ruler" ||
  tool = "fibonacci" || tool = "ray" || tool = "extended_line"

/-- The `TEXT_BOX_WIDTH_PX` constant. -/
def TEXT_BOX_WIDTH_PX : Co := 130

/-- The `TEXT_BOX_HEIGHT_PX` constant. -/
def TEXT_BOX_HEIGHT_PX : Co := 44

/-- `entityBBox` from `geometry.ts`: per-tool bounding box with the
horizontal/vertical-line and text exceptions. -/
def entityBBox (entity : DrawingEntity) (viewport : EngineViewport) : ModelBBox :=
  let bbox := bboxFromPoints entity.points
  match entity.points.head? with
  | none => bbox
  | some p0 =>
    if entity.tool = "horizontal_line" then
      { minLogical := bbox.minLogical - viewport.logicalPerPixel * 4
        maxLogical := bbox.maxLogical + viewport.logicalPerPixel * 4
        minPrice := p0.price
        maxPrice := p0.price }
    else if entity.tool = "vertical_line" then
      { minLogical := p0.logical
        maxLogical := p0.logical
        minPrice := bbox.minPrice - viewport.pricePerPixel * 4
        maxPrice := bbox.maxPrice + viewport.pricePerPixel * 4 }
    else if entity.tool = "text" then
      { minLogical := p0.logical
        maxLogical := p0.logical + viewport.logicalPerPixel * TEXT_BOX_WIDTH_PX
        minPrice := p0.price - viewport.pricePerPixel * TEXT_BOX_HEIGHT_PX
        maxPrice := p0.price }
    else bbox

/-- The handle loop at the top of `hitTestEntity`: return the index of the
first control point within tolerance of the query point. -/
def handleScan (point : DrawingPoint) (viewport : EngineViewport) (tol : Co) :
    Nat → List DrawingPoint → Option Nat
  | _, [] => none
  | i, h :: rest =>
    if distLePx point h viewport tol then some i
    else handleScan point viewport tol (i + 1) rest

/-- The body branch for line tools in `hitTestEntity` (ray / extended line /
segment distance checks, in source order). -/
def lineBodyHit (entity : DrawingEntity) (point : DrawingPoint) (viewport : EngineViewport)
    (tol : Co) : Option HitTestResult :=
  if isLineTool entity.tool ∧ 2 ≤ entity.points.length then
    match entity.points with
    | a :: b :: _ =>
      if entity.tool = "ray" && rayDistLePx point a b viewport tol then some ⟨.body, none⟩
      else if entity.tool = "extended_line" && lineDistLePx point a b viewport tol then
        some ⟨.body, none⟩
      else if segmentDistLePx point a b viewport tol then some ⟨.body, none⟩
      else none
    | _ => none
  else none

/-- The brush branch of `hitTestEntity`: per-segment distance over consecutive
point pairs. -/
def brushBodyHit (points : List DrawingPoint) (point : DrawingPoint)
    (viewport : EngineViewport) (tol : Co) : Bool :=
  (points.zip points.tail).any fun pr => segmentDistLePx point pr.1 pr.2 viewport tol

/-- The body checks of `hitTestEntity` after the handle loop, in source
order; the per-tool guards are mutually exclusive, so sequential `if` with
early `return` in the source is an `if`/`else` chain here.  The
horizontal/vertical line band tests divide a single-axis delta by the
corresponding scale, which is `distLePx` with the other axis zeroed. -/
def bodyHit (entity : DrawingEntity) (point : DrawingPoint) (viewport : EngineViewport)
    (tol : Co) : Option HitTestResult :=
  match lineBodyHit entity point viewport tol with
  | some r => some r
  | none =>
    if entity.tool = "horizontal_line" then
      match entity.points.head? with
      | some p0 =>
        if distLePx ⟨0, point.price⟩ ⟨0, p0.price⟩ viewport tol then some ⟨.body, none⟩ else none
      | none => none
    else if entity.tool = "vertical_line" then
      match entity.points.head? with
      | some p0 =>
        if distLePx ⟨point.logical, 0⟩ ⟨p0.logical, 0⟩ viewport tol then some ⟨.body, none⟩
        else none
      | none => none
    else if entity.tool = "rectangle" ∧ 2 ≤ entity.points.length then
      match entity.points with
      | a :: b :: _ => if nearRectEdge point a b viewport tol then some ⟨.body, none⟩ else none
      | _ => none
    else if entity.tool = "brush" ∧ 1 < entity.points.length then
      if brushBodyHit entity.points point viewport tol then some ⟨.body, none⟩ else none
    else if entity.tool = "text" then
      match entity.points.head? with
      | some anchor =>
        let logicalWidth := viewport.logicalPerPixel * TEXT_BOX_WIDTH_PX
        let priceHeight := viewport.pricePerPixel * TEXT_BOX_HEIGHT_PX
        if Co.le anchor.logical point.logical &&
            Co.le point.logical (anchor.logical + logicalWidth) &&
            Co.le point.price anchor.price &&
            Co.le (anchor.price - priceHeight) point.price then
          some ⟨.body, none⟩
        else none
      | none => none
    else none

/-- `hitTestEntity` from `geometry.ts`: hidden entities never hit, handles are
checked before any body test. -/
def hitTestEntity (entity : DrawingEntity) (point : DrawingPoint) (viewport : EngineViewport)
    (tol : Co) : Option HitTestResult :=
  if entity.visible = false then none
  else
    match handleScan point viewport tol 0 entity.points with
    | some i => some ⟨.handle, some i⟩
    | none => bodyHit entity point viewport tol

/-- `rectContainsBBox` from `geometry.ts`: full containment of the entity box
inside the normalized selection box. -/
def rectContainsBBox (selection entity : ModelBBox) : Bool :=
  let s := normalizeBBox selection
  Co.le s.minLogical entity.minLogical && Co.le entity.maxLogical s.maxLogical &&
  Co.le s.minPrice entity.minPrice && Co.le entity.maxPrice s.maxPrice

/-- `equalPoints` from `geometry.ts`. -/
def equalPoints (a b : DrawingPoint) (viewport : EngineViewport) (px : Co) : Bool :=
  distLePx a b viewport px

/-! ## Tools, options and defaults (`types.ts`, `tools.ts`, `defaults.ts`) -/

/-- Pointer kinds (`PointerInput.pointerType`); an absent value behaves like
`mouse` everywhere the source compares it. -/
inductive PointerType
  | mouse
  | touch
  | pen
deriving DecidableEq, Repr

/-- A partial style (`Partial<DrawingStyle>`), used by tool default styles. -/
structure StylePatch where
  strokeColor : Option String := none
  fillColor : Option String := none
  textColor : Option String := none
  lineWidth : Option Co := none
  lineStyle : Option DrawingLineStyle := none
  opacity : Option Co := none
  showLabel : Option Bool := none
deriving Repr

/-- Object-spread merge of a partial style over a base style. -/
def mergeStyle (base : DrawingStyle) (patch : StylePatch) : DrawingStyle :=
  { strokeColor := patch.strokeColor.getD base.strokeColor
    fillColor := patch.fillColor.getD base.fillColor
    textColor := patch.textColor.getD base.textColor
    lineWidth := patch.lineWidth.getD base.lineWidth
    lineStyle := patch.lineStyle.getD base.lineStyle
    opacity := patch.opacity.getD base.opacity
    showLabel := patch.showLabel.getD base.showLabel }

/-- Tool definition (`ToolDefinition`). -/
structure ToolDefinition where
  id : String
  minPoints : Nat
  maxPoints : Nat
  continuous : Bool := false
  defaultStyle : StylePatch := {}
  normalize : Option (DrawingEntity → DrawingEntity) := none

/-- `BUILTIN_TOOLS` from `tools.ts`. -/
def BUILTIN_TOOLS : List ToolDefinition :=
  [ { id := "cursor", minPoints := 0, maxPoints := 0 },
    { id := "trend_line", minPoints := 2, maxPoints := 2 },
    { id := "horizontal_line", minPoints := 1, maxPoints := 1 },
    { id := "vertical_line", minPoints := 1, maxPoints := 1 },
    { id := "ray", minPoints := 2, maxPoints := 2 },
    { id := "extended_line", minPoints := 2, maxPoints := 2 },
    { id := "rectangle", minPoints := 2, maxPoints := 2 },
    { id := "arrow", minPoints := 2, maxPoints := 2 },
    { id := "ruler", minPoints := 2, maxPoints := 2 },
    { id := "fibonacci", minPoints := 2, maxPoints := 2 },
    { id := "brush", minPoints := 2, maxPoints := 5000, continuous := true },
    { id := "text", minPoints := 1, maxPoints := 1 } ]

/-- The tool registry: a `Map<ToolId, ToolDefinition>` used only through `has`
/ `get` / `set`, modelled as a lookup function. -/
def Registry : Type := String → Option ToolDefinition

/-- `Map.set` on the registry. -/
def registrySet (d : ToolDefinition) (reg : Registry) : Registry :=
  fun t => if t = d.id then some d else reg t

/-- The registry populated with `BUILTIN_TOOLS` (built-in ids are distinct,
so first-match lookup equals last-write-wins insertion). -/
def builtinRegistry : Registry :=
  fun t => BUILTIN_TOOLS.find? fun d => decide (d.id = t)

/-- Snap modes. -/
inductive SnapMode
  | off
  | weak
  | strong
deriving DecidableEq, Repr

/-- Engine options (`EngineOptions`); `emitOnAnimationFrame` only batches
subscriber notifications and is not part of the modelled state. -/
structure EngineOptions where
  initialTool : String
  defaultStyle : DrawingStyle
  historyLimit : Nat
  hitTolerancePxMouse : Co
  hitTolerancePxTouch : Co
  snapMode : SnapMode
  enableHoldToDraw : Bool
  holdToDrawMs : Int
  holdMoveTolerancePx : Co
deriving Repr

/-- `Partial<EngineOptions>`; per the TypeScript type a present `defaultStyle`
is a complete style. -/
structure OptionsPatch where
  initialTool : Option String := none
  defaultStyle : Option DrawingStyle := none
  historyLimit : Option Nat := none
  hitTolerancePxMouse : Option Co := none
  hitTolerancePxTouch : Option Co := none
  snapMode : Option SnapMode := none
  enableHoldToDraw : Option Bool := none
  holdToDrawMs : Option Int := none
  holdMoveTolerancePx : Option Co := none
deriving Repr

/-- Object-spread merge of a partial options object over full options, with
the nested `defaultStyle` spread of `createDrawingEngine` / `setOptions`. -/
def mergeOptions (base : EngineOptions) (patch : OptionsPatch) : EngineOptions :=
  { initialTool := patch.initialTool.getD base.initialTool
    defaultStyle := patch.defaultStyle.getD base.defaultStyle
    historyLimit := patch.historyLimit.getD base.historyLimit
    hitTolerancePxMouse := patch.hitTolerancePxMouse.getD base.hitTolerancePxMouse
    hitTolerancePxTouch := patch.hitTolerancePxTouch.getD base.hitTolerancePxTouch
    snapMode := patch.snapMode.getD base.snapMode
    enableHoldToDraw := patch.enableHoldToDraw.getD base.enableHoldToDraw
    holdToDrawMs := patch.holdToDrawMs.getD base.holdToDrawMs
    holdMoveTolerancePx := patch.holdMoveTolerancePx.getD base.holdMoveTolerancePx }

/-- `DEFAULT_STYLE` from `defaults.ts`. -/
def DEFAULT_STYLE : DrawingStyle :=
  { strokeColor := "#2a7fff"
    fillColor := "rgba(42, 127, 255, 0.16)"
    textColor := "#101820"
    lineWidth := 2
    lineStyle := .solid
    opacity := 1
    showLabel := true }

/-- `DEFAULT_OPTIONS` from `defaults.ts`. -/
def DEFAULT_OPTIONS : EngineOptions :=
  { initialTool := "cursor"
    defaultStyle := DEFAULT_STYLE
    historyLimit := 300
    hitTolerancePxMouse := 6
    hitTolerancePxTouch := 14
    snapMode := .weak
    enableHoldToDraw := true
    holdToDrawMs := 180
    holdMoveTolerancePx := 6 }

/-- Pointer input (`PointerInput`); absent optional flags behave like their
defaults below in every comparison the source makes. -/
structure PointerInput where
  x : Co
  y : Co
  logical : Co
  price : Co
  viewport : EngineViewport
  pointerType : PointerType := .mouse
  button : Int := 0
  shiftKey : Bool := false
  altKey : Bool := false
  ctrlKey : Bool := false
  metaKey : Bool := false
deriving Repr

/-- Keyboard input (`KeyboardInput`). -/
structure KeyboardInput where
  key : String
  shiftKey : Bool := false
  altKey : Bool := false
  ctrlKey : Bool := false
  metaKey : Bool := false
deriving Repr

/-! ## History (`history.ts`) -/

/-- A history frame (`HistoryFrame`). -/
structure HistoryFrame where
  label : String
  before : List DrawingEntity
  after : List DrawingEntity
  stampedAt : Int
deriving DecidableEq, Repr

/-- The two stacks of a `HistoryStore`; the head of each list is the top
(JavaScript `push`/`pop` act on the array end). -/
structure HistoryState where
  undoStack : List HistoryFrame := []
  redoStack : List HistoryFrame := []
deriving DecidableEq, Repr

/-- `HistoryStore.push`: clear redo, push onto undo, evict the oldest entry
(the bottom, `shift()`) once the limit is exceeded. -/
def HistoryStore.push (limit : Nat) (frame : HistoryFrame) (h : HistoryState) : HistoryState :=
  let undo := frame :: h.undoStack
  { undoStack := if limit < undo.length then undo.dropLast else undo
    redoStack := [] }

/-! ## Engine state (`engine.ts`) -/

/-- The tagged interaction union (`InternalInteraction`). -/
inductive InternalInteraction where
  | idle
  | creating (tool : ToolDefinition) (startedAt : Int) (pointerType : PointerType)
      (downScreenX downScreenY : Co) (points : List DrawingPoint)
      (beforeSnapshot : List DrawingEntity) (pendingHold : Bool)
  | draggingSelection (start : DrawingPoint) (beforeSnapshot : List DrawingEntity)
      (originPoints : List (String × List DrawingPoint))
  | marquee (start current : DrawingPoint) (baseSelection : List String)

/-- The engine's mutable state (`EngineMutableState` plus the closed-over
`opts`, registry, history store and `lastViewport`).  The `revision` counter,
metrics and subscriber set only affect notifications and are not modelled;
the spatial index is recomputed at its single point of use (`topMostHit`)
from the same arguments the source rebuilds it with. -/
structure EngineState where
  opts : EngineOptions
  registry : Registry
  activeTool : String
  drawings : List DrawingEntity
  selection : List String
  primaryId : Option String
  interaction : InternalInteraction
  hist : HistoryState
  lastViewport : EngineViewport

/-- `Map.has` on the entity map. -/
def mapHas (l : List DrawingEntity) (id : String) : Bool :=
  l.any fun e => decide (e.id = id)

/-- `Map.get` on the entity map. -/
def mapGet (l : List DrawingEntity) (id : String) : Option DrawingEntity :=
  l.find? fun e => decide (e.id = id)

/-- `Map.set`: replace in place when the key exists, else append. -/
def mapSet (l : List DrawingEntity) (e : DrawingEntity) : List DrawingEntity :=
  if mapHas l e.id then l.map fun x => if x.id = e.id then e else x
  else l ++ [e]

/-- In-place mutation of one map entry (`drawing.<field> = ...`). -/
def mapUpdate (l : List DrawingEntity) (id : String) (f : DrawingEntity → DrawingEntity) :
    List DrawingEntity :=
  l.map fun x => if x.id = id then f x else x

/-- `Map.delete`. -/
def mapDelete (l : List DrawingEntity) (id : String) : List DrawingEntity :=
  l.filter fun e => decide (e.id ≠ id)

/-- `Set.add` (insertion ordered, no duplicates). -/
def setAdd (l : List String) (x : String) : List String :=
  if x ∈ l then l else l ++ [x]

/-- `new Set(xs)` (deduplicate keeping first occurrences). -/
def setOfList (xs : List String) : List String :=
  xs.foldl setAdd []

/-- `Set.delete`. -/
def setDelete (l : List String) (x : String) : List String :=
  l.filter fun y => decide (y ≠ x)

/-- The stable ascending comparator `(a, b) => a.zIndex - b.zIndex`. -/
def zRel (a b : DrawingEntity) : Prop := a.zIndex ≤ b.zIndex

instance : DecidableRel zRel := fun a b => Int.decLe a.zIndex b.zIndex

instance : IsTotal DrawingEntity zRel := ⟨fun a b => Int.le_total a.zIndex b.zIndex⟩

instance : IsTrans DrawingEntity zRel := ⟨fun _ _ _ h1 h2 => Int.le_trans h1 h2⟩

/-- `sortedDrawings`: entities sorted by `zIndex` (stable). -/
def sortedDrawings (s : EngineState) : List DrawingEntity :=
  List.insertionSort zRel s.drawings

/-- The sort key of `activeSelectionIds` (`zIndex ?? 0`). -/
def selKey (s : EngineState) (id : String) : Int :=
  ((mapGet s.drawings id).map fun d => d.zIndex).getD 0

/-- `activeSelectionIds`: selected ids still present, sorted by `zIndex`. -/
def activeSelectionIds (s : EngineState) : List String :=
  List.insertionSort (fun a b => selKey s a ≤ selKey s b)
    (s.selection.filter fun id => mapHas s.drawings id)

/-- Position-wise comparison inside `styleChanged`. -/
def entityShallowEq (a b : DrawingEntity) : Bool :=
  decide (a.id = b.id) && decide (a.updatedAt = b.updatedAt) && decide (a.zIndex = b.zIndex)

/-- `styleChanged` from `engine.ts`: the cheap structural difference check. -/
def styleChanged (a b : List DrawingEntity) : Bool :=
  if a.length ≠ b.length then true
  else (a.zip b).any fun pr => !entityShallowEq pr.1 pr.2

/-- Dense renumbering of `zIndex` starting at a given value. -/
def renumberZ : Int → List DrawingEntity → List DrawingEntity
  | _, [] => []
  | i, e :: rest => { e with zIndex := i } :: renumberZ (i + 1) rest

/-- `normalizeZ` from `engine.ts`: stable sort by `zIndex`, then renumber
densely from 0. -/
def normalizeZ (l : List DrawingEntity) : List DrawingEntity :=
  renumberZ 0 (List.insertionSort zRel l)

/-- `modifierUndo` from `engine.ts`. -/
def modifierUndo (input : KeyboardInput) : Bool :=
  input.ctrlKey || input.metaKey

/-- `key.toLowerCase()`, character by character (the engine only compares the
result against ASCII key names). -/
def jsToLower (s : String) : String := ⟨s.data.map Char.toLower⟩

/-- `selectionSet` from `engine.ts`; note the primary id is the last of the
*unfiltered* id list. -/
def selectionSet (s : EngineState) (ids : List String) : EngineState :=
  { s with selection := setOfList (ids.filter fun id => mapHas s.drawings id)
           primaryId := ids.getLast? }

/-- `addSelection` from `engine.ts`. -/
def addSelection (s : EngineState) (ids : List String) : EngineState :=
  ids.foldl
    (fun acc id =>
      if mapHas acc.drawings id then
        { acc with selection := setAdd acc.selection id, primaryId := some id }
      else acc)
    s

/-- `removeSelection` from `engine.ts`. -/
def removeSelection (s : EngineState) (id : String) : EngineState :=
  let s1 := { s with selection := setDelete s.selection id }
  if s.primaryId = some id then { s1 with primaryId := (activeSelectionIds s1).getLast? }
  else s1

/-- `toPoint` from `engine.ts`: snapping by mode. -/
def toPoint (opts : EngineOptions) (input : PointerInput) : DrawingPoint :=
  let point : DrawingPoint := ⟨input.logical, input.price⟩
  match opts.snapMode with
  | .off => point
  | .weak => ⟨jsRound point.logical, point.price⟩
  | .strong =>
    let step := Co.max (input.viewport.pricePerPixel * 5) ⟨1, 10000⟩
    ⟨jsRound point.logical, jsRound (point.price / step) * step⟩

/-- `hitTolerance` from `engine.ts`. -/
def hitTolerance (opts : EngineOptions) (input : PointerInput) : Co :=
  if input.pointerType = .touch then opts.hitTolerancePxTouch else opts.hitTolerancePxMouse

/-- `pushHistory` from `engine.ts`: skip when `styleChanged` is false. -/
def pushHistory (s : EngineState) (label : String) (before after : List DrawingEntity)
    (t : Int) : EngineState :=
  if styleChanged before after = false then s
  else { s with hist := HistoryStore.push s.opts.historyLimit ⟨label, before, after, t⟩ s.hist }

/-- `applyDrawings` from `engine.ts`: replace the whole entity map with the
normalized list, filter the selection to surviving ids, and repair the
primary id if its entity is gone. -/
def applyDrawings (s : EngineState) (entities : List DrawingEntity) : EngineState :=
  let drawings := normalizeZ entities
  let selection := s.selection.filter fun id => mapHas drawings id
  let s1 := { s with drawings := drawings, selection := selection }
  match s1.primaryId with
  | some p =>
    if mapHas drawings p then s1
    else { s1 with primaryId := (activeSelectionIds s1).getLast? }
  | none => s1

/-- `highestZ` from `engine.ts`. -/
def highestZ (l : List DrawingEntity) : Int :=
  l.foldl (fun m e => max m e.zIndex) (-1)

/-- `newEntity` from `engine.ts`; the fresh `nanoid` and `Date.now()` values
are arguments. -/
def newEntity (s : EngineState) (tool : ToolDefinition) (points : List DrawingPoint)
    (id : String) (t : Int) : DrawingEntity :=
  { id := id
    tool := tool.id
    points := points
    style := mergeStyle s.opts.defaultStyle tool.defaultStyle
    text := if tool.id = "text" then some "Text" else none
    visible := true
    locked := false
    zIndex := highestZ s.drawings + 1
    createdAt := t
    updatedAt := t }

/-- The entries `SpatialIndex.rebuild` loads into its RBush tree (the
spatial-index module, in the source tree at `src/unnamed/part_002`): one item
per visible entity (hidden ones are skipped), keyed by the entity id, with
the box `expandBBoxByPixels(entityBBox(drawing, viewport), viewport,
tolerancePx)`.  The tree itself is elided: the engine only ever consumes the
entry set through `queryPoint` (below), never the tree structure. -/
def indexEntries (drawings : List DrawingEntity) (viewport : EngineViewport) (tolPx : Co) :
    List (String × ModelBBox) :=
  (drawings.filter fun e => e.visible).map fun e =>
    (e.id, expandBBoxByPixels (entityBBox e viewport) viewport tolPx)

/-- The id set of `SpatialIndex.queryPoint (logical, price)`: an RBush search
with the degenerate box `{minX: logical, minY: price, maxX: logical, maxY:
price}` returns exactly the loaded items whose box contains the point (all
bounds closed), mapped to their ids.  RBush yields them in tree order, not
insertion order; the engine's one call site (`topMostHit`) immediately wraps
the result in `new Set(...)` and uses only membership and emptiness, so the
insertion-ordered list here is observationally the same. -/
def queryPoint (entries : List (String × ModelBBox)) (point : DrawingPoint) : List String :=
  (entries.filter fun pr =>
    Co.le pr.2.minLogical point.logical && Co.le point.logical pr.2.maxLogical &&
    Co.le pr.2.minPrice point.price && Co.le point.price pr.2.maxPrice).map fun pr => pr.1

/-- A top-level hit query result. -/
structure TopHit where
  id : String
  kind : HitKind
  handleIndex : Option Nat := none
deriving DecidableEq, Repr

/-- Lift a per-entity hit to a `TopHit`. -/
def hitFrom (d : DrawingEntity) (point : DrawingPoint) (viewport : EngineViewport)
    (tol : Co) : Option TopHit :=
  (hitTestEntity d point viewport tol).map fun h => ⟨d.id, h.kind, h.handleIndex⟩

/-- `topMostHit` from `engine.ts`: first pass over visible entities top-most
first restricted to index candidates (unless the candidate set is empty),
then the stale-index fallback over all entities.  The index was rebuilt by
`pointerDown` immediately before this query with the same arguments, so its
entries are computed in place here. -/
def topMostHit (s : EngineState) (point : DrawingPoint) (viewport : EngineViewport)
    (tol : Co) : Option TopHit :=
  let candidateIds := queryPoint (indexEntries (sortedDrawings s) viewport tol) point
  let drawings := (sortedDrawings s).reverse
  let firstPass := drawings.findSome? fun d =>
    if d.visible = false then none
    else if candidateIds.length ≠ 0 && !candidateIds.contains d.id then none
    else hitFrom d point viewport tol
  match firstPass with
  | some hit => some hit
  | none => drawings.findSome? fun d => hitFrom d point viewport tol

/-- `startCreating` from `engine.ts`. -/
def startCreating (s : EngineState) (input : PointerInput) (tool : ToolDefinition)
    (t : Int) : EngineState :=
  let before := sortedDrawings s
  let point := toPoint s.opts input
  { s with
    interaction := .creating tool t input.pointerType input.x input.y [point] before
      (s.opts.enableHoldToDraw && decide (input.pointerType = .touch) &&
        decide (tool.id ≠ "cursor") && !tool.continuous) }

/-- `startDragSelection` from `engine.ts`. -/
def startDragSelection (s : EngineState) (input : PointerInput) : EngineState :=
  let ids := activeSelectionIds s
  if ids.length = 0 then s
  else
    let originPoints := ids.filterMap fun id =>
      match mapGet s.drawings id with
      | none => none
      | some d => if d.locked then none else some (id, d.points)
    { s with interaction := .draggingSelection (toPoint s.opts input) (sortedDrawings s) originPoints }

/-- `applyMarqueeSelection` from `engine.ts`: select `base ∪` the entities
whose *generic point bounding box*, expanded by 2 px for brush strokes and
1 px otherwise, is fully contained in the marquee box. -/
def applyMarqueeSelection (s : EngineState) (start current : DrawingPoint)
    (baseSelection : List String) : EngineState :=
  let selectionBounds := bboxFromPoints [start, current]
  let matched := (s.drawings.filter fun d =>
    rectContainsBBox selectionBounds
      (expandBBoxByPixels (bboxFromPoints d.points) s.lastViewport
        (if d.tool = "brush" then 2 else 1))).map fun d => d.id
  let next := matched.foldl setAdd baseSelection
  { s with selection := next, primaryId := next.getLast? }

/-- `normalize` hook application (`tool.normalize ? tool.normalize(entity) :
entity`). -/
def applyNormalize (tool : ToolDefinition) (e : DrawingEntity) : DrawingEntity :=
  match tool.normalize with
  | some f => f e
  | none => e

/-- `commitNewEntity` from `engine.ts`. -/
def commitNewEntity (s : EngineState) (tool : ToolDefinition) (points : List DrawingPoint)
    (beforeSnapshot : List DrawingEntity) (newId : String) (t : Int) : EngineState :=
  if points.length < tool.minPoints then s
  else
    let entity := newEntity s tool points newId t
    let normalized := applyNormalize tool entity
    let s1 := { s with drawings := mapSet s.drawings normalized }
    let s2 := selectionSet s1 [normalized.id]
    pushHistory s2 ("create:" ++ tool.id) beforeSnapshot (sortedDrawings s2) t

/-- `finishCreating` from `engine.ts`. -/
def finishCreating (s : EngineState) (input : PointerInput) (t : Int) (newId : String) :
    EngineState :=
  match s.interaction with
  | .creating tool startedAt pointerType _dsx _dsy points beforeSnapshot pendingHold =>
    if pendingHold && decide (pointerType = .touch) && decide (t - startedAt < s.opts.holdToDrawMs) then
      { s with interaction := .idle }
    else
      let point := toPoint s.opts input
      if tool.continuous then
        if points.length < tool.minPoints then { s with interaction := .idle }
        else { commitNewEntity s tool points beforeSnapshot newId t with interaction := .idle }
      else if tool.maxPoints = 1 then
        let first := (points.get? 0).getD point
        { commitNewEntity s tool [first] beforeSnapshot newId t with interaction := .idle }
      else
        let first := (points.get? 0).getD point
        let second := (points.get? 1).getD point
        if equalPoints first second input.viewport 2 then { s with interaction := .idle }
        else { commitNewEntity s tool [first, second] beforeSnapshot newId t with
                interaction := .idle }
  | _ => s

/-- One loop body of `keyboardMoveSelection`: translate an unlocked selected
entity's points in place and stamp it. -/
def nudgeStep (delta : DrawingPoint) (t : Int) (acc : EngineState) (id : String) :
    EngineState :=
  match mapGet acc.drawings id with
  | none => acc
  | some d =>
    if d.locked then acc
    else
      { acc with
        drawings := mapUpdate acc.drawings id fun dd =>
          { dd with points := dd.points.map (translatePoint · delta), updatedAt := t } }

/-- `keyboardMoveSelection` from `engine.ts`. -/
def keyboardMoveSelection (s : EngineState) (dxPx dyPx : Co) (t : Int) : EngineState :=
  let selected := activeSelectionIds s
  if selected.length = 0 then s
  else
    let before := sortedDrawings s
    let delta : DrawingPoint :=
      ⟨dxPx * s.lastViewport.logicalPerPixel, dyPx * s.lastViewport.pricePerPixel⟩
    let s1 := selected.foldl (nudgeStep delta t) s
    pushHistory s1 "move-selection:keyboard" before (sortedDrawings s1) t

/-- The duplication loop shared by alt-drag duplication and
`duplicateSelection`: fresh ids are consumed from `dupIds` one per existing
entity, exactly as one `nanoid()` call per loop body. -/
def dupLoop (delta : DrawingPoint) (t : Int) (dupIds : List String) :
    List String → Nat → EngineState → List String → EngineState × List String
  | [], _, st, acc => (st, acc)
  | id :: rest, k, st, acc =>
    match mapGet st.drawings id with
    | none => dupLoop delta t dupIds rest k st acc
    | some d =>
      let copy := { d with
        id := dupIds.getD k ""
        points := d.points.map (translatePoint · delta)
        createdAt := t
        updatedAt := t
        zIndex := highestZ st.drawings + 1 }
      dupLoop delta t dupIds rest (k + 1)
        { st with drawings := mapSet st.drawings copy } (acc ++ [copy.id])

/-- The alt-drag duplication block of `pointerDown`. -/
def altDuplicate (s : EngineState) (input : PointerInput) (t : Int) (dupIds : List String) :
    EngineState :=
  let before := sortedDrawings s
  let delta : DrawingPoint :=
    ⟨input.viewport.logicalPerPixel * 14, input.viewport.pricePerPixel * (-14)⟩
  let res := dupLoop delta t dupIds (activeSelectionIds s) 0 s []
  let s1 := selectionSet res.1 res.2
  pushHistory s1 "duplicate:alt-drag" before (sortedDrawings s1) t

/-- `Math.hypot dx dy ≥ tol`, embedded via squares. -/
def hypotGePx (dx dy tol : Co) : Bool :=
  Co.le tol 0 || Co.le (tol * tol) (dx * dx + dy * dy)

/-! ## Public operations (`engine.ts`) -/

/-- The two error kinds of section 7 of the spec. -/
inductive EngineError
  | invalidToolId (tool : String)
  | unsupportedSnapshotVersion (version : String)
deriving DecidableEq, Repr

/-- `setTool`: unknown ids raise before any state change. -/
def setToolE (s : EngineState) (tool : String) : Except EngineError EngineState :=
  if (s.registry tool).isSome = false then .error (.invalidToolId tool)
  else .ok { s with activeTool := tool, interaction := .idle }

/-- `setTool` as a state transition: a raised error leaves the state as it
was. -/
def setToolOp (s : EngineState) (tool : String) : EngineState :=
  match setToolE s tool with
  | .ok s1 => s1
  | .error _ => s

/-- `setOptions`. -/
def setOptionsOp (s : EngineState) (patch : OptionsPatch) : EngineState :=
  { s with opts := mergeOptions s.opts patch }

/-- `registerTool`. -/
def registerToolOp (s : EngineState) (d : ToolDefinition) : EngineState :=
  { s with registry := registrySet d s.registry }

/-- `pointerDown`; `t` is `Date.now()` and `dupIds` the `nanoid()` stream for
alt-drag duplication. -/
def pointerDown (s0 : EngineState) (input : PointerInput) (t : Int) (dupIds : List String) :
    EngineState :=
  let s := { s0 with lastViewport := input.viewport }
  let tolerance := hitTolerance s.opts input
  let point := toPoint s.opts input
  if s.activeTool = "cursor" then
    match topMostHit s point input.viewport tolerance with
    | some hit =>
      let s1 :=
        if input.shiftKey then
          if hit.id ∈ s.selection then removeSelection s hit.id else addSelection s [hit.id]
        else if hit.id ∈ s.selection then s
        else selectionSet s [hit.id]
      let canDrag := !input.shiftKey && decide (input.button ≠ 2) &&
        ((activeSelectionIds s1).any fun id =>
          !(((mapGet s1.drawings id).map fun d => d.locked).getD false))
      if canDrag then
        let s2 :=
          if input.altKey && decide (0 < (activeSelectionIds s1).length) then
            altDuplicate s1 input t dupIds
          else s1
        startDragSelection s2 input
      else { s1 with interaction := .idle }
    | none =>
      let s1 := if input.shiftKey then s else selectionSet s []
      { s1 with
        interaction := .marquee point point (if input.shiftKey then s1.selection else []) }
  else
    match s.registry s.activeTool with
    | none => s
    | some tool => startCreating s input tool t

/-- One loop body of the drag branch of `pointerMove`: reposition an
unlocked dragged entity from its recorded origin points and stamp it. -/
def dragStep (delta : DrawingPoint) (t : Int) (acc : EngineState)
    (pr : String × List DrawingPoint) : EngineState :=
  match mapGet acc.drawings pr.1 with
  | none => acc
  | some d =>
    if d.locked then acc
    else
      { acc with
        drawings := mapUpdate acc.drawings pr.1 fun dd =>
          { dd with points := pr.2.map (translatePoint · delta), updatedAt := t } }

/-- `pointerMove`. -/
def pointerMove (s0 : EngineState) (input : PointerInput) (t : Int) : EngineState :=
  let s := { s0 with lastViewport := input.viewport }
  match s.interaction with
  | .creating tool startedAt pointerType dsx dsy points beforeSnapshot pendingHold =>
    let point := toPoint s.opts input
    let stillPending := pendingHold &&
      !(decide (s.opts.holdToDrawMs ≤ t - startedAt) ||
        hypotGePx (input.x - dsx) (input.y - dsy) s.opts.holdMoveTolerancePx)
    if stillPending then
      { s with interaction := .creating tool startedAt pointerType dsx dsy points beforeSnapshot true }
    else
      let points1 :=
        if tool.continuous then
          match points.getLast? with
          | none => points ++ [point]
          | some last =>
            if equalPoints last point input.viewport 1 then points else points ++ [point]
        else if 1 < tool.maxPoints then
          if points.length = 1 then points ++ [point] else points.set 1 point
        else points
      { s with
        interaction := .creating tool startedAt pointerType dsx dsy points1 beforeSnapshot false }
  | .draggingSelection start _beforeSnapshot originPoints =>
    let delta : DrawingPoint :=
      ⟨(toPoint s.opts input).logical - start.logical, (toPoint s.opts input).price - start.price⟩
    originPoints.foldl (dragStep delta t) s
  | .marquee start _current baseSelection =>
    let cur := toPoint s.opts input
    applyMarqueeSelection { s with interaction := .marquee start cur baseSelection }
      start cur baseSelection
  | .idle => s

/-- `pointerUp`; `newId` is the `nanoid()` a commit would draw. -/
def pointerUp (s0 : EngineState) (input : PointerInput) (t : Int) (newId : String) :
    EngineState :=
  let s := { s0 with lastViewport := input.viewport }
  match s.interaction with
  | .creating _ _ _ _ _ _ _ _ => finishCreating s input t newId
  | .draggingSelection _start beforeSnapshot _origin =>
    let s1 := pushHistory s "move-selection:pointer" beforeSnapshot (sortedDrawings s) t
    { s1 with interaction := .idle }
  | .marquee _ _ _ => { s with interaction := .idle }
  | .idle => s

/-- `undo`. -/
def undoOp (s : EngineState) : EngineState :=
  match s.hist.undoStack with
  | [] => s
  | f :: rest =>
    applyDrawings
      { s with hist := { undoStack := rest, redoStack := f :: s.hist.redoStack } } f.before

/-- `redo`. -/
def redoOp (s : EngineState) : EngineState :=
  match s.hist.redoStack with
  | [] => s
  | f :: rest =>
    applyDrawings
      { s with hist := { undoStack := f :: s.hist.undoStack, redoStack := rest } } f.after

/-- `deleteSelection`. -/
def deleteSelectionOp (s : EngineState) (t : Int) : EngineState :=
  let ids := activeSelectionIds s
  if ids.length = 0 then s
  else
    let before := sortedDrawings s
    let s1 := { s with drawings := ids.foldl mapDelete s.drawings }
    let s2 := { selectionSet s1 [] with interaction := .idle }
    pushHistory s2 "delete-selection" before (sortedDrawings s2) t

/-- `selectAll`. -/
def selectAllOp (s : EngineState) : EngineState :=
  selectionSet s ((sortedDrawings s).map fun d => d.id)

/-- `clearSelection`. -/
def clearSelectionOp (s : EngineState) : EngineState :=
  selectionSet s []

/-- `setVisibility`. -/
def setVisibilityOp (s : EngineState) (ids : List String) (visible : Bool) (t : Int) :
    EngineState :=
  if ids.length = 0 then s
  else
    let before := sortedDrawings s
    let s1 := ids.foldl
      (fun acc id =>
        if mapHas acc.drawings id then
          { acc with
            drawings := mapUpdate acc.drawings id fun d =>
              { d with visible := visible, updatedAt := t } }
        else acc)
      s
    pushHistory s1 "visibility" before (sortedDrawings s1) t

/-- `setLocked`. -/
def setLockedOp (s : EngineState) (ids : List String) (locked : Bool) (t : Int) :
    EngineState :=
  if ids.length = 0 then s
  else
    let before := sortedDrawings s
    let s1 := ids.foldl
      (fun acc id =>
        if mapHas acc.drawings id then
          { acc with
            drawings := mapUpdate acc.drawings id fun d =>
              { d with locked := locked, updatedAt := t } }
        else acc)
      s
    pushHistory s1 "lock" before (sortedDrawings s1) t

/-- One loop body of `bringToFront`'s reassignment: increment `z`, then
assign it (skipping missing ids). -/
def bringStep (t : Int) (acc : EngineState × Int) (id : String) : EngineState × Int :=
  if mapHas acc.1.drawings id then
    ({ acc.1 with
        drawings := mapUpdate acc.1.drawings id fun d =>
          { d with zIndex := acc.2 + 1, updatedAt := t } }, acc.2 + 1)
  else acc

/-- The reassignment loop of `bringToFront`: `z` starts at the current
highest and is incremented before each assignment (skipping missing ids). -/
def bringAssign (s : EngineState) (ids : List String) (t : Int) : EngineState :=
  (ids.foldl (bringStep t) (s, highestZ s.drawings)).1

/-- `bringToFront`. -/
def bringToFrontOp (s : EngineState) (ids : List String) (t : Int) : EngineState :=
  if ids.length = 0 then s
  else
    let before := sortedDrawings s
    let s1 := bringAssign s ids t
    let s2 := applyDrawings s1 (normalizeZ (sortedDrawings s1))
    pushHistory s2 "bring-to-front" before (sortedDrawings s2) t

/-- One loop body of `sendToBack`'s reassignment: assign `z`, then increment
it (skipping missing ids). -/
def sendStep (t : Int) (acc : EngineState × Int) (id : String) : EngineState × Int :=
  if mapHas acc.1.drawings id then
    ({ acc.1 with
        drawings := mapUpdate acc.1.drawings id fun d =>
          { d with zIndex := acc.2, updatedAt := t } }, acc.2 + 1)
  else acc

/-- The reassignment loop of `sendToBack`: `z` starts at `-ids.length` and is
incremented after each assignment (skipping missing ids). -/
def sendAssign (s : EngineState) (ids : List String) (t : Int) : EngineState :=
  (ids.foldl (sendStep t) (s, -(ids.length : Int))).1

/-- `sendToBack`. -/
def sendToBackOp (s : EngineState) (ids : List String) (t : Int) : EngineState :=
  if ids.length = 0 then s
  else
    let before := sortedDrawings s
    let s1 := sendAssign s ids t
    let s2 := applyDrawings s1 (normalizeZ (sortedDrawings s1))
    pushHistory s2 "send-to-back" before (sortedDrawings s2) t

/-- `duplicateSelection`. -/
def duplicateSelectionOp (s : EngineState) (t : Int) (dupIds : List String) : EngineState :=
  let ids := activeSelectionIds s
  if ids.length = 0 then s
  else
    let before := sortedDrawings s
    let delta : DrawingPoint :=
      ⟨s.lastViewport.logicalPerPixel * 18, s.lastViewport.pricePerPixel * (-18)⟩
    let res := dupLoop delta t dupIds ids 0 s []
    let s1 := selectionSet res.1 res.2
    pushHistory s1 "duplicate-selection" before (sortedDrawings s1) t

/-- `keyDown` from `engine.ts`; `t` and `dupIds` feed the operations it can
dispatch to.  Note the source tests the undo chord first, so
Ctrl/Cmd+Shift+Z also lands on undo. -/
def keyDown (s : EngineState) (input : KeyboardInput) (t : Int) (dupIds : List String) :
    EngineState :=
  let isUndo := modifierUndo input && decide (jsToLower input.key = "z")
  let isRedo := modifierUndo input &&
    ((input.shiftKey && decide (jsToLower input.key = "z")) || decide (jsToLower input.key = "y"))
  if isUndo then undoOp s
  else if isRedo then redoOp s
  else if input.key = "Escape" then { s with interaction := .idle }
  else if input.key = "Delete" ∨ input.key = "Backspace" then deleteSelectionOp s t
  else if (input.ctrlKey || input.metaKey) && decide (jsToLower input.key = "a") then
    selectAllOp s
  else if input.key = "ArrowLeft" then keyboardMoveSelection s (-1) 0 t
  else if input.key = "ArrowRight" then keyboardMoveSelection s 1 0 t
  else if input.key = "ArrowUp" then keyboardMoveSelection s 0 (-1) t
  else if input.key = "ArrowDown" then keyboardMoveSelection s 0 1 t
  else if (input.ctrlKey || input.metaKey) && decide (jsToLower input.key = "d") then
    duplicateSelectionOp s t dupIds
  else s

/-- A group reference in a snapshot. -/
structure GroupRef where
  id : String
  name : Option String := none
deriving DecidableEq, Repr

/-- The versioned snapshot (`DrawingSnapshotV1`); the open `meta` bag is not
modelled. -/
structure DrawingSnapshot where
  version : String
  drawings : List DrawingEntity
  groups : List GroupRef
  prefsActiveTool : String
  prefsSnapMode : SnapMode
deriving Repr

/-- `exportSnapshot`. -/
def exportSnapshot (s : EngineState) : DrawingSnapshot :=
  { version := "1"
    drawings := sortedDrawings s
    groups := []
    prefsActiveTool := s.activeTool
    prefsSnapMode := s.opts.snapMode }

/-- `importSnapshot`: an unsupported version raises before any state change. -/
def importSnapshotE (s : EngineState) (snap : DrawingSnapshot) :
    Except EngineError EngineState :=
  if snap.version ≠ "1" then .error (.unsupportedSnapshotVersion snap.version)
  else
    let s1 := applyDrawings s snap.drawings
    let s2 := { s1 with
      activeTool := snap.prefsActiveTool
      opts := { s1.opts with snapMode := snap.prefsSnapMode } }
    let s3 := selectionSet s2 []
    .ok { s3 with interaction := .idle, hist := {} }

/-- `importSnapshot` as a state transition: a raised error leaves the state
as it was. -/
def importSnapshotOp (s : EngineState) (snap : DrawingSnapshot) : EngineState :=
  match importSnapshotE s snap with
  | .ok s1 => s1
  | .error _ => s

/-- `createDrawingEngine`: merge options over defaults, start from the
initial mutable state, then fall back to the `cursor` tool when the requested
initial tool is not registered. -/
def createDrawingEngine (options : OptionsPatch) : EngineState :=
  let opts := mergeOptions DEFAULT_OPTIONS options
  let s : EngineState :=
    { opts := opts
      registry := builtinRegistry
      activeTool := opts.initialTool
      drawings := []
      selection := []
      primaryId := none
      interaction := .idle
      hist := {}
      lastViewport := ⟨1, 1⟩ }
  if (s.registry opts.initialTool).isSome = false then { s with activeTool := "cursor" } else s

/-! ## Claim-level auxiliary definitions -/

/-- The per-entity fields claim C2 compares: id, points, style, visibility
and lock flags. -/
def entityView (e : DrawingEntity) : String × List DrawingPoint × DrawingStyle × Bool × Bool :=
  (e.id, e.points, e.style, e.visible, e.locked)

/-- The cheap structural check exactly as claim C9 words it: same length,
and at every position the same id, the same `updatedAt`, and the same
`zIndex`. -/
def structEqSpec (a b : List DrawingEntity) : Prop :=
  a.length = b.length ∧
  ∀ pr ∈ a.zip b, pr.1.id = pr.2.id ∧ pr.1.updatedAt = pr.2.updatedAt ∧
    pr.1.zIndex = pr.2.zIndex

instance (a b : List DrawingEntity) : Decidable (structEqSpec a b) := by
  unfold structEqSpec; infer_instance

/-- The containment predicate claim C4 asserts the marquee uses: the
*per-tool* bounding box of spec section 4.2 (`entityBBox`), expanded by
pixels through the viewport scale, 2 px for brush strokes and 1 px
otherwise.  (The code instead expands the generic `bboxFromPoints` box.) -/
def marqueeClaimMatches (viewport : EngineViewport) (sel : ModelBBox)
    (d : DrawingEntity) : Bool :=
  rectContainsBBox sel
    (expandBBoxByPixels (entityBBox d viewport) viewport (if d.tool = "brush" then 2 else 1))

/-- The containment predicate the code actually uses in
`applyMarqueeSelection`: the generic point bounding box, expanded by 2 px for
brush strokes and 1 px otherwise. -/
def marqueeCodeMatches (viewport : EngineViewport) (sel : ModelBBox)
    (d : DrawingEntity) : Bool :=
  rectContainsBBox sel
    (expandBBoxByPixels (bboxFromPoints d.points) viewport (if d.tool = "brush" then 2 else 1))

/-- The ids of the live entities, in map insertion order. -/
def liveIds (s : EngineState) : List String :=
  s.drawings.map fun e => e.id

/-- Arrow-key directions for the keyboard nudge operation. -/
inductive NudgeDir
  | left
  | right
  | up
  | down
deriving DecidableEq, Repr

/-- The keyboard input an arrow nudge sends. -/
def nudgeInput : NudgeDir → KeyboardInput
  | .left => { key := "ArrowLeft" }
  | .right => { key := "ArrowRight" }
  | .up => { key := "ArrowUp" }
  | .down => { key := "ArrowDown" }

/-- The operation alphabet of claim C1: a complete pointer gesture (tool
selection, pointer down, moves, pointer up — a create with a drawing tool, or
a select/drag move with the cursor), a keyboard nudge, and a selection
delete.  Timestamps and the committed entity's fresh id are explicit. -/
inductive EditOp
  | gesture (tool : String) (down : PointerInput) (tDown : Int)
      (moves : List (PointerInput × Int)) (up : PointerInput) (tUp : Int) (newId : String)
  | nudge (dir : NudgeDir) (t : Int)
  | del (t : Int)

/-- Run one edit operation through the public engine entry points. -/
def applyEdit (s : EngineState) : EditOp → EngineState
  | .gesture tool down tDown moves up tUp newId =>
    pointerUp
      (moves.foldl (fun acc m => pointerMove acc m.1 m.2)
        (pointerDown (setToolOp s tool) down tDown []))
      up tUp newId
  | .nudge dir t => keyDown s (nudgeInput dir) t []
  | .del t => deleteSelectionOp s t

/-- Run a sequence of edit operations. -/
def applyEdits (s : EngineState) (ops : List EditOp) : EngineState :=
  ops.foldl applyEdit s

/-- The timestamps an edit operation consumes, in order. -/
def editTimes : EditOp → List Int
  | .gesture _ _ tDown moves _ tUp _ => tDown :: (moves.map fun m => m.2) ++ [tUp]
  | .nudge _ t => [t]
  | .del t => [t]

/-- Strictly increasing chain of timestamps above a lower bound. -/
def timesChainB (T : Int) : List Int → Bool
  | [] => true
  | t :: rest => decide (T < t) && timesChainB t rest

/-- Per-operation side conditions for claim C1: a commit's fresh id is
really fresh, and the gesture is not an alt-drag (alt-drag duplicates, which
is not a create/move/delete operation). -/
def editValidB (s : EngineState) : EditOp → Bool
  | .gesture _ down _ _ _ _ newId => !down.altKey && !decide (newId ∈ liveIds s)
  | _ => true

/-- Validity of a whole edit sequence: strictly increasing timestamps (so
`Date.now()` never repeats a value an entity already carries) and the
per-operation side conditions, threading the running time bound. -/
def validEditsB (s : EngineState) (T : Int) : List EditOp → Bool
  | [] => true
  | op :: rest =>
    timesChainB T (editTimes op) && editValidB s op &&
      validEditsB (applyEdit s op) ((editTimes op).getLastD T) rest

/-- The point a 2-point commit takes at position `i`: the captured point if
present, else the pointer-up point (`points[i] ?? point`). -/
def capturedPoint (s : EngineState) (input : PointerInput) (pts : List DrawingPoint)
    (i : Nat) : DrawingPoint :=
  (pts.get? i).getD (toPoint s.opts input)

/-- The entity a 2-point commit stores: the fresh entity built by `newEntity`
with the two captured points, after the per-tool `normalize` hook. -/
def twoPointCommitEntity (s : EngineState) (input : PointerInput) (t : Int) (newId : String)
    (tool : ToolDefinition) (pts : List DrawingPoint) : DrawingEntity :=
  applyNormalize tool
    (newEntity s tool [capturedPoint s input pts 0, capturedPoint s input pts 1] newId t)

/-- All entities of a list carry an update timestamp at most `T`. -/
def entsBelow (T : Int) (l : List DrawingEntity) : Prop :=
  ∀ e ∈ l, e.updatedAt ≤ T

/-- The entity list is strictly increasing in `zIndex` (so it is its own
stable sort and all `zIndex` values are distinct). -/
def zStrict (l : List DrawingEntity) : Prop :=
  l.Pairwise fun a b => a.zIndex < b.zIndex

/-- Relation between a drag's `beforeSnapshot` and the current entity list:
same positions, ids and z-order; snapshot timestamps bounded by `T`; and a
position whose timestamp did not change is entirely unchanged.  This is what
makes the `styleChanged` skip check sound under strictly increasing clocks. -/
def dragRel (T : Int) (bs cur : List DrawingEntity) : Prop :=
  List.Forall₂
    (fun b c => b.id = c.id ∧ b.zIndex = c.zIndex ∧ b.updatedAt ≤ T ∧
      (c.updatedAt = b.updatedAt → c = b))
    bs cur

/-- One in-place entity mutation at time `t`: either untouched, or id and
z preserved with the update stamp set to `t`. -/
def touchRel (t : Int) (x y : DrawingEntity) : Prop :=
  y = x ∨ (y.id = x.id ∧ y.zIndex = x.zIndex ∧ y.updatedAt = t)

/-- The invariant claim C1's proof maintains at edit-operation boundaries:
strictly increasing z-order, timestamps bounded by the clock, the top undo
frame's `after` list equal to the current sorted entity list, an empty redo
stack, an idle interaction, and the built-in tool registry. -/
def CoreInv (s : EngineState) (T : Int) : Prop :=
  zStrict s.drawings ∧ entsBelow T s.drawings ∧
  (∀ f, s.hist.undoStack.head? = some f → f.after = sortedDrawings s) ∧
  s.hist.redoStack = [] ∧ s.interaction = .idle ∧ s.registry = builtinRegistry

/-- The invariant inside a gesture (between pointer-down and pointer-up),
whose interaction-dependent part accounts for a drag mutating entities ahead
of its pointer-up history push. -/
def MidInv (s : EngineState) (T : Int) : Prop :=
  zStrict s.drawings ∧ entsBelow T s.drawings ∧
  s.hist.redoStack = [] ∧ s.registry = builtinRegistry ∧
  (match s.interaction with
   | .draggingSelection _ bs _ =>
     (∀ f, s.hist.undoStack.head? = some f → f.after = bs) ∧ dragRel T bs s.drawings
   | .creating tool _ _ _ _ _ bs _ =>
     tool.normalize = none ∧ bs = sortedDrawings s ∧
     (∀ f, s.hist.undoStack.head? = some f → f.after = sortedDrawings s)
   | _ => ∀ f, s.hist.undoStack.head? = some f → f.after = sortedDrawings s)

/-- A mouse pointer input at a point, with the identity viewport. -/
def ptrInputAt (lg pr : Co) : PointerInput :=
  { x := lg, y := pr, logical := lg, price := pr, viewport := ⟨1, 1⟩ }

/-- A concrete run of public operations: create entity "A", create entity
"B" (selecting it), shift-click empty space with the cursor (opening a
marquee whose base selection is the live selection, {"B"}), then `undo`
(which deletes "B" and clears the selection, but — unlike spec section 4.4's
"undo/redo always discard the current interaction" — leaves the marquee
interaction in place), then one more marquee pointer move. -/
def undoDuringMarqueeRun : EngineState :=
  let s1 := setToolOp (createDrawingEngine {}) "trend_line"
  let s2 := pointerUp (pointerMove (pointerDown s1 (ptrInputAt 0 0) 1 []) (ptrInputAt 5 5) 2)
    (ptrInputAt 5 5) 3 "A"
  let s3 := pointerUp
    (pointerMove (pointerDown s2 (ptrInputAt 100 100) 4 []) (ptrInputAt 105 105) 5)
    (ptrInputAt 105 105) 6 "B"
  let s4 := setToolOp s3 "cursor"
  let s5 := pointerDown s4
    { x := 50, y := 200, logical := 50, price := 200, viewport := ⟨1, 1⟩, shiftKey := true } 7 []
  let s6 := undoOp s5
  pointerMove s6 (ptrInputAt 51 201) 8

/-- A concrete valid edit sequence for claim C1: create a trend line with a
pointer gesture (down at (10,100) at t=1, up at (20,90) at t=2, fresh id
"A"), then nudge the selection right with the keyboard at t=3. -/
def c1ops : List EditOp :=
  [.gesture "trend_line" (ptrInputAt 10 100) 1 [] (ptrInputAt 20 90) 2 "A",
   .nudge .right 3]

/-- A concrete run refuting claim C1 as originally stated, before the
strictly-increasing-timestamp amendment: the same create gesture and keyboard
nudge as `c1ops`, but with every `Date.now()` reading equal to 0 (JavaScript
timestamps have millisecond resolution, so repeats are possible).  The nudge
then leaves `updatedAt` unchanged, the cheap `styleChanged` check misreads
the move as a no-op and skips its history push, and `undo` followed by `redo`
reinstates the pre-nudge points. -/
def sameMsRun : EngineState :=
  applyEdits (createDrawingEngine {})
    [.gesture "trend_line" (ptrInputAt 10 100) 0 [] (ptrInputAt 20 90) 0 "A",
     .nudge .right 0]

/-! ## Claim C5: handle hits take priority over body hits -/

theorem handleScan_eq_some_of_exists (point : DrawingPoint) (viewport : EngineViewport)
    (tol : Co) :
    ∀ (l : List DrawingPoint) (i : Nat),
      (∃ h ∈ l, distLePx point h viewport tol = true) →
      ∃ k, ∃ hk : k < l.length,
        handleScan point viewport tol i l = some (i + k) ∧
        distLePx point (l.get ⟨k, hk⟩) viewport tol = true := by
  intro l
  induction l with
  | nil => intro i h; simp at h
  | cons a rest ih =>
    intro i hex
    by_cases ha : distLePx point a viewport tol = true
    · exact ⟨0, by simp, by simp [handleScan, ha]⟩
    · obtain ⟨h, hmem, hdist⟩ := hex
      rcases List.mem_cons.mp hmem with rfl | hmem
      · exact absurd hdist ha
      · obtain ⟨k, hk, heq, hdk⟩ := ih (i + 1) ⟨h, hmem, hdist⟩
        refine ⟨k + 1, by simpa using Nat.succ_lt_succ hk, ?_, ?_⟩
        · simpa [handleScan, ha, Nat.add_assoc, Nat.add_comm 1 k] using heq
        · simpa using hdk

/-- C5: for every visible entity, query point, viewport and tolerance, if the
query point is within tolerance of one of the entity's control points, then
`hitTestEntity` returns a `handle` hit carrying the index of a handle that is
within tolerance (the first such), never a `body` hit. -/
theorem hitTestEntity_handle_priority (entity : DrawingEntity) (point : DrawingPoint)
    (viewport : EngineViewport) (tol : Co)
    (hvis : entity.visible = true)
    (hnear : ∃ h ∈ entity.points, distLePx point h viewport tol = true) :
    ∃ j, ∃ hj : j < entity.points.length,
      hitTestEntity entity point viewport tol = some ⟨.handle, some j⟩ ∧
      distLePx point (entity.points.get ⟨j, hj⟩) viewport tol = true := by
  obtain ⟨k, hk, heq, hdk⟩ :=
    handleScan_eq_some_of_exists point viewport tol entity.points 0 hnear
  refine ⟨k, hk, ?_, hdk⟩
  simp only [hitTestEntity, hvis]
  simp only [Nat.zero_add] at heq
  simp [heq]

/-- Witness for C5 at a concrete input: the trend line from the repository's
own geometry test, queried at its first handle with tolerance 4. -/
theorem hitTestEntity_handle_priority_witness :
    ∃ j, ∃ hj : j < ([⟨10, 100⟩, ⟨20, 90⟩] : List DrawingPoint).length,
      hitTestEntity
          { id := "a", tool := "trend_line", points := [⟨10, 100⟩, ⟨20, 90⟩],
            style := ⟨"#000", "#0000", "#000", 2, .solid, 1, true⟩ }
          ⟨10, 100⟩ ⟨1, 1⟩ 4 = some ⟨.handle, some j⟩ ∧
      distLePx ⟨10, 100⟩ (([⟨10, 100⟩, ⟨20, 90⟩] : List DrawingPoint).get ⟨j, hj⟩) ⟨1, 1⟩ 4 =
        true :=
  hitTestEntity_handle_priority
    { id := "a", tool := "trend_line", points := [⟨10, 100⟩, ⟨20, 90⟩],
      style := ⟨"#000", "#0000", "#000", 2, .solid, 1, true⟩ }
    ⟨10, 100⟩ ⟨1, 1⟩ 4 rfl ⟨⟨10, 100⟩, by decide⟩

/-! ## Supporting lemmas -/

theorem styleChanged_false_iff (a b : List DrawingEntity) :
    styleChanged a b = false ↔ structEqSpec a b := by
  unfold styleChanged structEqSpec
  by_cases h : a.length = b.length
  · simp [h, List.any_eq_false, entityShallowEq, and_assoc]
  · simp [h]

theorem styleChanged_true_of_length_ne (a b : List DrawingEntity)
    (h : a.length ≠ b.length) : styleChanged a b = true := by
  simp [styleChanged, h]

theorem insertionSort_zRel_idem (l : List DrawingEntity) :
    List.insertionSort zRel (List.insertionSort zRel l) = List.insertionSort zRel l :=
  (List.sorted_insertionSort zRel l).insertionSort_eq

theorem zStrict.sorted {l : List DrawingEntity} (h : zStrict l) : List.Sorted zRel l :=
  h.imp fun hab => Int.le_of_lt hab

theorem zStrict.sort_eq {l : List DrawingEntity} (h : zStrict l) :
    List.insertionSort zRel l = l :=
  h.sorted.insertionSort_eq

theorem renumberZ_le (i : Int) (l : List DrawingEntity) :
    ∀ e ∈ renumberZ i l, i ≤ e.zIndex := by
  induction l generalizing i with
  | nil => simp [renumberZ]
  | cons x rest ih =>
    intro e he
    rcases List.mem_cons.mp he with rfl | he
    · exact Int.le_refl i
    · exact Int.le_trans (Int.le_of_lt (lt_add_one i)) (ih (i + 1) e he)

theorem renumberZ_zStrict (i : Int) (l : List DrawingEntity) :
    zStrict (renumberZ i l) := by
  induction l generalizing i with
  | nil => exact List.Pairwise.nil
  | cons x rest ih =>
    refine List.Pairwise.cons ?_ (ih (i + 1))
    intro e he
    exact Int.lt_of_lt_of_le (lt_add_one i) (renumberZ_le (i + 1) rest e he)

theorem renumberZ_renumberZ (i : Int) (l : List DrawingEntity) :
    renumberZ i (renumberZ i l) = renumberZ i l := by
  induction l generalizing i with
  | nil => rfl
  | cons x rest ih => simp [renumberZ, ih (i + 1)]

theorem normalizeZ_zStrict (l : List DrawingEntity) : zStrict (normalizeZ l) :=
  renumberZ_zStrict 0 (List.insertionSort zRel l)

theorem normalizeZ_idem (l : List DrawingEntity) :
    normalizeZ (normalizeZ l) = normalizeZ l := by
  unfold normalizeZ
  rw [(renumberZ_zStrict 0 (List.insertionSort zRel l)).sort_eq, renumberZ_renumberZ]

theorem normalizeZ_of_sorted {l : List DrawingEntity} (h : List.Sorted zRel l) :
    normalizeZ l = renumberZ 0 l := by
  unfold normalizeZ
  rw [h.insertionSort_eq]

theorem normalizeZ_insertionSort (l : List DrawingEntity) :
    normalizeZ (List.insertionSort zRel l) = normalizeZ l := by
  unfold normalizeZ
  rw [insertionSort_zRel_idem]

theorem renumberZ_length (i : Int) (l : List DrawingEntity) :
    (renumberZ i l).length = l.length := by
  induction l generalizing i with
  | nil => rfl
  | cons x rest ih => simp [renumberZ, ih (i + 1)]

theorem renumberZ_map_view (i : Int) (l : List DrawingEntity) :
    (renumberZ i l).map entityView = l.map entityView := by
  induction l generalizing i with
  | nil => rfl
  | cons x rest ih => simp [renumberZ, ih (i + 1), entityView]

theorem renumberZ_map_z (i : Int) (l : List DrawingEntity) :
    (renumberZ i l).map (fun e => e.zIndex) =
      (List.range l.length).map fun k => i + Int.ofNat k := by
  induction l generalizing i with
  | nil => rfl
  | cons x rest ih =>
    simp only [renumberZ, List.map_cons, ih (i + 1), List.length_cons,
      List.range_succ_eq_map, List.map_map]
    rw [List.cons_eq_cons]
    refine ⟨by simp, List.map_congr_left fun k _ => ?_⟩
    simp only [Function.comp_apply, Int.ofNat_eq_natCast]
    push_cast
    ring

theorem pushHistory_drawings (s : EngineState) (label : String)
    (before after : List DrawingEntity) (t : Int) :
    (pushHistory s label before after t).drawings = s.drawings := by
  unfold pushHistory
  split <;> rfl

theorem pushHistory_fields (s : EngineState) (label : String)
    (before after : List DrawingEntity) (t : Int) :
    (pushHistory s label before after t).drawings = s.drawings ∧
    (pushHistory s label before after t).selection = s.selection ∧
    (pushHistory s label before after t).primaryId = s.primaryId ∧
    (pushHistory s label before after t).interaction = s.interaction ∧
    (pushHistory s label before after t).registry = s.registry ∧
    (pushHistory s label before after t).opts = s.opts ∧
    (pushHistory s label before after t).lastViewport = s.lastViewport := by
  unfold pushHistory
  split <;> simp

theorem applyDrawings_fields (s : EngineState) (entities : List DrawingEntity) :
    (applyDrawings s entities).drawings = normalizeZ entities ∧
    (applyDrawings s entities).hist = s.hist ∧
    (applyDrawings s entities).interaction = s.interaction ∧
    (applyDrawings s entities).registry = s.registry ∧
    (applyDrawings s entities).opts = s.opts := by
  unfold applyDrawings
  cases s.primaryId with
  | none => simp
  | some p =>
    simp only
    split <;> simp

theorem selectionSet_drawings (s : EngineState) (ids : List String) :
    (selectionSet s ids).drawings = s.drawings := rfl

/-! ## Claim C9: the history push skip check -/

/-- C9: a history push is skipped, leaving both stacks unchanged, exactly
when `before` and `after` agree under the cheap structural check (same
length, and at every position the same id, `updatedAt` and `zIndex`);
otherwise the frame is pushed onto the store. -/
theorem pushHistory_skip_iff (a b : List DrawingEntity) (s : EngineState) (label : String)
    (t : Int) :
    (styleChanged a b = false ↔ structEqSpec a b) ∧
    pushHistory s label a b t =
      (if structEqSpec a b then s
       else { s with hist := HistoryStore.push s.opts.historyLimit ⟨label, a, b, t⟩ s.hist }) := by
  refine ⟨styleChanged_false_iff a b, ?_⟩
  unfold pushHistory
  by_cases h : structEqSpec a b
  · rw [if_pos ((styleChanged_false_iff a b).mpr h), if_pos h]
  · rw [if_neg ?_, if_neg h]
    intro hc
    exact h ((styleChanged_false_iff a b).mp hc)

/-! ## Claim C3: the two error paths are atomic -/

/-- C3: `setTool` with an unregistered tool id raises `InvalidToolId` and
leaves the state untouched, and `importSnapshot` with a version tag other
than "1" raises `UnsupportedSnapshotVersion` and leaves the state untouched
(in this functional embedding, the error is returned before any state field
is rebuilt, so the surviving state is the input state itself). -/
theorem engine_errors_atomic (s : EngineState) (tool : String) (snap : DrawingSnapshot)
    (h1 : (s.registry tool).isSome = false) (h2 : snap.version ≠ "1") :
    setToolE s tool = .error (.invalidToolId tool) ∧
    setToolOp s tool = s ∧
    importSnapshotE s snap = .error (.unsupportedSnapshotVersion snap.version) ∧
    importSnapshotOp s snap = s := by
  have e1 : setToolE s tool = .error (.invalidToolId tool) := by
    unfold setToolE
    rw [if_pos h1]
  have e2 : importSnapshotE s snap = .error (.unsupportedSnapshotVersion snap.version) := by
    unfold importSnapshotE
    rw [if_pos h2]
  refine ⟨e1, ?_, e2, ?_⟩
  · unfold setToolOp
    rw [e1]
  · unfold importSnapshotOp
    rw [e2]

/-- Witness for C3: a fresh engine, the unregistered tool id "bogus", and a
version-2 snapshot. -/
theorem engine_errors_atomic_witness :
    setToolE (createDrawingEngine {}) "bogus" = .error (.invalidToolId "bogus") ∧
    setToolOp (createDrawingEngine {}) "bogus" = createDrawingEngine {} ∧
    importSnapshotE (createDrawingEngine {})
        ⟨"2", [], [], "cursor", .weak⟩ = .error (.unsupportedSnapshotVersion "2") ∧
    importSnapshotOp (createDrawingEngine {}) ⟨"2", [], [], "cursor", .weak⟩ =
      createDrawingEngine {} :=
  engine_errors_atomic (createDrawingEngine {}) "bogus" ⟨"2", [], [], "cursor", .weak⟩
    (by decide) (by decide)

/-! ## Claim C10: an unregistered initial tool falls back to "cursor" -/

/-- C10: constructing an engine with an `initialTool` that is not in the
registry does not fail; the engine silently starts on the "cursor" tool,
whereas `setTool` with the same id raises `InvalidToolId`. -/
theorem createDrawingEngine_unregistered_initial (popts : OptionsPatch)
    (h : (builtinRegistry ((mergeOptions DEFAULT_OPTIONS popts).initialTool)).isSome = false) :
    (createDrawingEngine popts).activeTool = "cursor" ∧
    setToolE (createDrawingEngine popts) ((mergeOptions DEFAULT_OPTIONS popts).initialTool) =
      .error (.invalidToolId ((mergeOptions DEFAULT_OPTIONS popts).initialTool)) := by
  constructor
  · unfold createDrawingEngine
    simp [h]
  · unfold setToolE createDrawingEngine
    simp [h]

/-- Witness for C10: `initialTool := "nope"`. -/
theorem createDrawingEngine_unregistered_initial_witness :
    (createDrawingEngine { initialTool := some "nope" }).activeTool = "cursor" ∧
    setToolE (createDrawingEngine { initialTool := some "nope" })
        ((mergeOptions DEFAULT_OPTIONS { initialTool := some "nope" }).initialTool) =
      .error (.invalidToolId
        ((mergeOptions DEFAULT_OPTIONS { initialTool := some "nope" }).initialTool)) :=
  createDrawingEngine_unregistered_initial { initialTool := some "nope" } (by decide)

/-! ## Claim C2: export then import reproduces the drawing list -/

/-- C2: exporting any engine state and importing the snapshot into a freshly
constructed engine succeeds (no version error) and yields a drawing list
with the same ids, points, styles and visibility/lock flags, entity for
entity in the same paint order; only `zIndex` is renumbered by the import's
normalization. -/
theorem export_import_roundtrip (s : EngineState) (popts : OptionsPatch) :
    (importSnapshotE (createDrawingEngine popts) (exportSnapshot s)).isOk = true ∧
    (sortedDrawings (importSnapshotOp (createDrawingEngine popts) (exportSnapshot s))).map
        entityView =
      (sortedDrawings s).map entityView := by
  have hv : ¬ (exportSnapshot s).version ≠ "1" := by
    simp [exportSnapshot]
  constructor
  · unfold importSnapshotE
    rw [if_neg hv]
    rfl
  · have hd : (importSnapshotOp (createDrawingEngine popts) (exportSnapshot s)).drawings =
        normalizeZ (sortedDrawings s) := by
      unfold importSnapshotOp importSnapshotE
      rw [if_neg hv]
      simp only
      rw [selectionSet_drawings]
      simp only [exportSnapshot]
      exact (applyDrawings_fields (createDrawingEngine popts) (sortedDrawings s)).1
    unfold sortedDrawings
    rw [hd, (normalizeZ_zStrict (sortedDrawings s)).sort_eq]
    unfold normalizeZ sortedDrawings
    rw [insertionSort_zRel_idem, renumberZ_map_view]

/-! ## Claim C7: bringToFront / sendToBack renormalize z-indices -/

theorem bringStep_length (t : Int) (acc : EngineState × Int) (id : String) :
    ((bringStep t acc id).1).drawings.length = acc.1.drawings.length := by
  unfold bringStep
  split <;> simp [mapUpdate]

theorem sendStep_length (t : Int) (acc : EngineState × Int) (id : String) :
    ((sendStep t acc id).1).drawings.length = acc.1.drawings.length := by
  unfold sendStep
  split <;> simp [mapUpdate]

theorem foldl_fst_length {f : (EngineState × Int) → String → (EngineState × Int)}
    (hf : ∀ acc id, ((f acc id).1).drawings.length = acc.1.drawings.length) :
    ∀ (ids : List String) (acc : EngineState × Int),
      ((ids.foldl f acc).1).drawings.length = acc.1.drawings.length := by
  intro ids
  induction ids with
  | nil => intro acc; rfl
  | cons x rest ih =>
    intro acc
    rw [List.foldl_cons, ih, hf]

theorem bringAssign_length (s : EngineState) (ids : List String) (t : Int) :
    (bringAssign s ids t).drawings.length = s.drawings.length :=
  foldl_fst_length (bringStep_length t) ids (s, highestZ s.drawings)

theorem sendAssign_length (s : EngineState) (ids : List String) (t : Int) :
    (sendAssign s ids t).drawings.length = s.drawings.length :=
  foldl_fst_length (sendStep_length t) ids (s, -(ids.length : Int))

theorem normalizeZ_map_z (l : List DrawingEntity) :
    (normalizeZ l).map (fun e => e.zIndex) = (List.range l.length).map Int.ofNat := by
  unfold normalizeZ
  rw [renumberZ_map_z, List.length_insertionSort]
  exact List.map_congr_left fun k _ => by omega

/-- C7: after `bringToFront` or `sendToBack` on a non-empty id list, the
`zIndex` values of the live entities are exactly `0 .. n-1` (`n` the entity
count, unchanged by the operation), assigned in the order of the stable sort
by the pre-normalization `zIndex` values (`normalizeZ` of the reassignment
loop's result). -/
theorem zorder_ops_contiguous (s : EngineState) (ids : List String) (t : Int)
    (h : ids ≠ []) :
    (bringToFrontOp s ids t).drawings = normalizeZ ((bringAssign s ids t).drawings) ∧
    ((bringToFrontOp s ids t).drawings.map fun e => e.zIndex) =
      (List.range s.drawings.length).map Int.ofNat ∧
    (sendToBackOp s ids t).drawings = normalizeZ ((sendAssign s ids t).drawings) ∧
    ((sendToBackOp s ids t).drawings.map fun e => e.zIndex) =
      (List.range s.drawings.length).map Int.ofNat := by
  have hlen : ¬ ids.length = 0 := fun hc => h (List.length_eq_zero.mp hc)
  have hb : (bringToFrontOp s ids t).drawings =
      normalizeZ ((bringAssign s ids t).drawings) := by
    unfold bringToFrontOp
    rw [if_neg hlen, pushHistory_drawings,
      (applyDrawings_fields (bringAssign s ids t) (normalizeZ (sortedDrawings (bringAssign s ids t)))).1,
      normalizeZ_idem]
    unfold sortedDrawings
    rw [normalizeZ_insertionSort]
  have hs : (sendToBackOp s ids t).drawings =
      normalizeZ ((sendAssign s ids t).drawings) := by
    unfold sendToBackOp
    rw [if_neg hlen, pushHistory_drawings,
      (applyDrawings_fields (sendAssign s ids t) (normalizeZ (sortedDrawings (sendAssign s ids t)))).1,
      normalizeZ_idem]
    unfold sortedDrawings
    rw [normalizeZ_insertionSort]
  refine ⟨hb, ?_, hs, ?_⟩
  · rw [hb, normalizeZ_map_z, bringAssign_length]
  · rw [hs, normalizeZ_map_z, sendAssign_length]

/-- Witness for C7: a two-entity engine state with sparse z-indices, one
entity brought to front. -/
theorem zorder_ops_contiguous_witness :
    ((bringToFrontOp
        { opts := DEFAULT_OPTIONS, registry := builtinRegistry, activeTool := "cursor",
          drawings := [{ id := "a", tool := "trend_line", points := [], style := DEFAULT_STYLE,
                         zIndex := 5 },
                       { id := "b", tool := "trend_line", points := [], style := DEFAULT_STYLE,
                         zIndex := 7 }],
          selection := [], primaryId := none, interaction := .idle, hist := {},
          lastViewport := ⟨1, 1⟩ } ["a"] 9).drawings.map fun e => e.zIndex) =
      (List.range 2).map Int.ofNat :=
  (zorder_ops_contiguous
    { opts := DEFAULT_OPTIONS, registry := builtinRegistry, activeTool := "cursor",
      drawings := [{ id := "a", tool := "trend_line", points := [], style := DEFAULT_STYLE,
                     zIndex := 5 },
                   { id := "b", tool := "trend_line", points := [], style := DEFAULT_STYLE,
                     zIndex := 7 }],
      selection := [], primaryId := none, interaction := .idle, hist := {},
      lastViewport := ⟨1, 1⟩ } ["a"] 9 (by decide)).2.1

/-! ## Claim C6: pointer-up on a non-continuous 2-point tool -/

theorem mapSet_of_fresh (l : List DrawingEntity) (e : DrawingEntity)
    (h : mapHas l e.id = false) : mapSet l e = l ++ [e] := by
  unfold mapSet
  rw [h]
  simp

theorem mapHas_append_self (l : List DrawingEntity) (e : DrawingEntity) :
    mapHas (l ++ [e]) e.id = true := by
  simp [mapHas]

theorem setOfList_singleton (x : String) : setOfList [x] = [x] := by
  simp [setOfList, setAdd]

theorem sortedDrawings_length (s : EngineState) :
    (sortedDrawings s).length = s.drawings.length := by
  unfold sortedDrawings
  exact List.length_insertionSort _ _

theorem pointerUp_of_creating (s0 : EngineState) (input : PointerInput) (t : Int)
    (newId : String) (tool : ToolDefinition) (sa : Int) (pt : PointerType) (dx dy : Co)
    (pts : List DrawingPoint) (bs : List DrawingEntity) (ph : Bool)
    (hint : s0.interaction = .creating tool sa pt dx dy pts bs ph) :
    pointerUp s0 input t newId =
      finishCreating { s0 with lastViewport := input.viewport } input t newId := by
  unfold pointerUp
  have h2 : ({ s0 with lastViewport := input.viewport } : EngineState).interaction =
      .creating tool sa pt dx dy pts bs ph := hint
  rw [h2]

/-- C6: a pointer-up that ends a Creating interaction of a non-continuous
2-point tool (no pending hold, snapshot taken at gesture start): if the two
captured points are within 2 pixels of each other the interaction is
discarded — no entity, no history, no selection change; otherwise exactly
one new entity is appended, built by `newEntity` (fresh id, tool defaults
merged over engine defaults, `zIndex` one above the previous maximum, both
timestamps `t`) with the per-tool `normalize` hook applied, the selection
becomes exactly the new entity, and a frame labeled `create:<tool>` is
pushed. -/
theorem pointerUp_two_point_commit (s : EngineState) (input : PointerInput) (t : Int)
    (newId : String) (tool : ToolDefinition) (sa : Int) (pt : PointerType) (dx dy : Co)
    (pts : List DrawingPoint)
    (hint : s.interaction = .creating tool sa pt dx dy pts (sortedDrawings s) false)
    (hcont : tool.continuous = false) (hmin : tool.minPoints = 2) (hmax : tool.maxPoints = 2)
    (hfresh : mapHas s.drawings (twoPointCommitEntity s input t newId tool pts).id = false) :
    (equalPoints (capturedPoint s input pts 0) (capturedPoint s input pts 1)
        input.viewport 2 = true →
      (pointerUp s input t newId).drawings = s.drawings ∧
      (pointerUp s input t newId).hist = s.hist ∧
      (pointerUp s input t newId).selection = s.selection ∧
      (pointerUp s input t newId).interaction = .idle) ∧
    (equalPoints (capturedPoint s input pts 0) (capturedPoint s input pts 1)
        input.viewport 2 = false →
      (pointerUp s input t newId).drawings =
        s.drawings ++ [twoPointCommitEntity s input t newId tool pts] ∧
      (pointerUp s input t newId).selection =
        [(twoPointCommitEntity s input t newId tool pts).id] ∧
      (pointerUp s input t newId).primaryId =
        some (twoPointCommitEntity s input t newId tool pts).id ∧
      (pointerUp s input t newId).interaction = .idle ∧
      (pointerUp s input t newId).hist =
        HistoryStore.push s.opts.historyLimit
          ⟨"create:" ++ tool.id, sortedDrawings s,
            List.insertionSort zRel
              (s.drawings ++ [twoPointCommitEntity s input t newId tool pts]), t⟩
          s.hist) := by
  rw [pointerUp_of_creating s input t newId tool sa pt dx dy pts (sortedDrawings s) false hint]
  unfold finishCreating
  have h2 : ({ s with lastViewport := input.viewport } : EngineState).interaction =
      .creating tool sa pt dx dy pts (sortedDrawings s) false := hint
  rw [h2]
  simp only [Bool.false_and, Bool.and_eq_true, decide_eq_true_eq, hcont,
    Bool.false_eq_true, if_false]
  rw [if_neg (by rw [hmax]; omega)]
  constructor
  · intro heq
    rw [if_pos ?_]
    · exact ⟨rfl, rfl, rfl, rfl⟩
    · exact heq
  · intro heq
    rw [if_neg ?_]
    · unfold commitNewEntity
      rw [if_neg (by simp [hmin])]
      simp only
      unfold twoPointCommitEntity capturedPoint newEntity at hfresh ⊢
      simp only at hfresh ⊢
      rw [mapSet_of_fresh _ _ hfresh]
      have hfold : applyNormalize tool
          { id := newId, tool := tool.id,
            points := [(pts.get? 0).getD (toPoint s.opts input),
              (pts.get? 1).getD (toPoint s.opts input)],
            style := mergeStyle s.opts.defaultStyle tool.defaultStyle,
            text := if tool.id = "text" then some "Text" else none, visible := true,
            locked := false, zIndex := highestZ s.drawings + 1, createdAt := t,
            updatedAt := t } = twoPointCommitEntity s input t newId tool pts := rfl
      rw [hfold]
      unfold selectionSet
      simp only [List.filter_cons, List.filter_nil, mapHas_append_self, if_true,
        setOfList_singleton]
      unfold pushHistory
      rw [if_neg ?hsc]
      case hsc =>
        intro hc
        rw [styleChanged_true_of_length_ne] at hc
        · exact Bool.true_eq_false.mp hc
        · rw [sortedDrawings_length, sortedDrawings_length]
          simp
      refine ⟨rfl, ?_, ?_, ?_, ?_⟩ <;> trivial
    · unfold capturedPoint at heq
      rw [heq]
      exact Bool.false_ne_true

/-- Witness for C6: a trend-line creation gesture from (10,100) to (20,90)
(more than 2 px apart) commits exactly one entity. -/
theorem pointerUp_two_point_commit_witness :
    (pointerUp
        { opts := DEFAULT_OPTIONS, registry := builtinRegistry, activeTool := "trend_line",
          drawings := [], selection := [], primaryId := none,
          interaction := .creating ⟨"trend_line", 2, 2, false, {}, none⟩ 0 .mouse 10 100
            [⟨10, 100⟩, ⟨20, 90⟩] [] false,
          hist := {}, lastViewport := ⟨1, 1⟩ }
        { x := 20, y := 90, logical := 20, price := 90, viewport := ⟨1, 1⟩ } 3 "e1").drawings =
      [] ++ [twoPointCommitEntity
        { opts := DEFAULT_OPTIONS, registry := builtinRegistry, activeTool := "trend_line",
          drawings := [], selection := [], primaryId := none,
          interaction := .creating ⟨"trend_line", 2, 2, false, {}, none⟩ 0 .mouse 10 100
            [⟨10, 100⟩, ⟨20, 90⟩] [] false,
          hist := {}, lastViewport := ⟨1, 1⟩ }
        { x := 20, y := 90, logical := 20, price := 90, viewport := ⟨1, 1⟩ } 3 "e1"
        ⟨"trend_line", 2, 2, false, {}, none⟩ [⟨10, 100⟩, ⟨20, 90⟩]] :=
  ((pointerUp_two_point_commit
      { opts := DEFAULT_OPTIONS, registry := builtinRegistry, activeTool := "trend_line",
        drawings := [], selection := [], primaryId := none,
        interaction := .creating ⟨"trend_line", 2, 2, false, {}, none⟩ 0 .mouse 10 100
          [⟨10, 100⟩, ⟨20, 90⟩] [] false,
        hist := {}, lastViewport := ⟨1, 1⟩ }
      { x := 20, y := 90, logical := 20, price := 90, viewport := ⟨1, 1⟩ } 3 "e1"
      ⟨"trend_line", 2, 2, false, {}, none⟩ 0 .mouse 10 100 [⟨10, 100⟩, ⟨20, 90⟩]
      rfl rfl rfl rfl (by decide)).2 (by decide)).1

/-! ## Claim C4: marquee selection semantics -/

theorem mem_setAdd (l : List String) (x y : String) :
    x ∈ setAdd l y ↔ x ∈ l ∨ x = y := by
  unfold setAdd
  split
  · constructor
    · exact Or.inl
    · rintro (h | rfl)
      · exact h
      · assumption
  · simp

theorem mem_foldl_setAdd (x : String) :
    ∀ (l : List String) (base : List String),
      x ∈ l.foldl setAdd base ↔ x ∈ base ∨ x ∈ l := by
  intro l
  induction l with
  | nil => simp
  | cons y rest ih =>
    intro base
    rw [List.foldl_cons, ih, mem_setAdd]
    constructor
    · rintro ((h | rfl) | h)
      · exact Or.inl h
      · exact Or.inr (List.mem_cons_self _ _)
      · exact Or.inr (List.mem_cons_of_mem _ h)
    · rintro (h | h)
      · exact Or.inl (Or.inl h)
      · rcases List.mem_cons.mp h with rfl | h
        · exact Or.inl (Or.inr rfl)
        · exact Or.inr h

/-- C4 (amended): after a pointer move inside a Marquee interaction, the
selection is exactly the base selection united with the entities whose
*generic point bounding box* (`bboxFromPoints`, not the per-tool box of
spec section 4.2), expanded through the viewport scale by 2 px for brush
strokes and 1 px otherwise, is fully contained in the marquee rectangle; a
partially overlapping entity is never added. -/
theorem pointerMove_marquee_selection (s : EngineState) (input : PointerInput) (t : Int)
    (start current0 : DrawingPoint) (base : List String)
    (hint : s.interaction = .marquee start current0 base) (id : String) :
    id ∈ (pointerMove s input t).selection ↔
      id ∈ base ∨ ∃ d ∈ s.drawings, d.id = id ∧
        marqueeCodeMatches input.viewport
          (bboxFromPoints [start, toPoint s.opts input]) d = true := by
  unfold pointerMove
  have h2 : ({ s with lastViewport := input.viewport } : EngineState).interaction =
      .marquee start current0 base := hint
  rw [h2]
  unfold applyMarqueeSelection marqueeCodeMatches
  simp only [mem_foldl_setAdd, List.mem_map, List.mem_filter]
  constructor
  · rintro (h | ⟨d, ⟨hd, hp⟩, rfl⟩)
    · exact Or.inl h
    · exact Or.inr ⟨d, hd, rfl, hp⟩
  · rintro (h | ⟨d, hd, rfl, hp⟩)
    · exact Or.inl h
    · exact Or.inr ⟨d, ⟨hd, hp⟩, rfl⟩

/-- Witness for C4 at a concrete marquee state: a vertical line at
(10, 100) against the marquee from (5, 98) to (15, 102). -/
theorem pointerMove_marquee_selection_witness :
    "vl" ∈ (pointerMove
        { opts := DEFAULT_OPTIONS, registry := builtinRegistry, activeTool := "cursor",
          drawings := [{ id := "vl", tool := "vertical_line", points := [⟨10, 100⟩],
                         style := DEFAULT_STYLE }],
          selection := [], primaryId := none,
          interaction := .marquee ⟨5, 98⟩ ⟨5, 98⟩ [], hist := {}, lastViewport := ⟨1, 1⟩ }
        { x := 15, y := 102, logical := 15, price := 102, viewport := ⟨1, 1⟩ } 1).selection ↔
      "vl" ∈ ([] : List String) ∨
      ∃ d ∈ [({ id := "vl", tool := "vertical_line", points := [⟨10, 100⟩],
                style := DEFAULT_STYLE } : DrawingEntity)], d.id = "vl" ∧
        marqueeCodeMatches ⟨1, 1⟩
          (bboxFromPoints [⟨5, 98⟩,
            toPoint DEFAULT_OPTIONS
              { x := 15, y := 102, logical := 15, price := 102, viewport := ⟨1, 1⟩ }]) d =
          true :=
  pointerMove_marquee_selection
    { opts := DEFAULT_OPTIONS, registry := builtinRegistry, activeTool := "cursor",
      drawings := [{ id := "vl", tool := "vertical_line", points := [⟨10, 100⟩],
                     style := DEFAULT_STYLE }],
      selection := [], primaryId := none,
      interaction := .marquee ⟨5, 98⟩ ⟨5, 98⟩ [], hist := {}, lastViewport := ⟨1, 1⟩ }
    { x := 15, y := 102, logical := 15, price := 102, viewport := ⟨1, 1⟩ } 1
    ⟨5, 98⟩ ⟨5, 98⟩ [] rfl "vl"

/-- Counterexample to C4 as stated: with the same marquee, the code *does*
select the vertical line (its generic point box fits inside the marquee),
while the claim's per-tool bounding box of section 4.2 (4 px cross-axis
expansion for a vertical line) does not fit, and the base selection is
empty — so "base ∪ entities whose per-tool expanded bbox is contained"
mischaracterizes the selection. -/
theorem marquee_claim_counterexample :
    "vl" ∈ (pointerMove
        { opts := DEFAULT_OPTIONS, registry := builtinRegistry, activeTool := "cursor",
          drawings := [{ id := "vl", tool := "vertical_line", points := [⟨10, 100⟩],
                         style := DEFAULT_STYLE }],
          selection := [], primaryId := none,
          interaction := .marquee ⟨5, 98⟩ ⟨5, 98⟩ [], hist := {}, lastViewport := ⟨1, 1⟩ }
        { x := 15, y := 102, logical := 15, price := 102, viewport := ⟨1, 1⟩ } 1).selection ∧
    "vl" ∉ ([] : List String) ∧
    marqueeClaimMatches ⟨1, 1⟩
      (bboxFromPoints [⟨5, 98⟩,
        toPoint DEFAULT_OPTIONS
          { x := 15, y := 102, logical := 15, price := 102, viewport := ⟨1, 1⟩ }])
      { id := "vl", tool := "vertical_line", points := [⟨10, 100⟩], style := DEFAULT_STYLE } =
      false := by
  refine ⟨by decide, by decide, by decide⟩

/-! ## Claim C8: the primaryId invariant fails on a reachable state -/

/-- C8 (failing input): after the `undoDuringMarqueeRun` sequence of public
operations, the state view's `primaryId` is the stale id "B" of an entity
the undo removed, while the view's selection id list (`activeSelectionIds`)
is empty — so `primaryId` is neither none nor an element of the selection's
id set.  The marquee's recorded base selection resurrects "B" because
`undo`, contrary to spec section 4.4, does not discard the in-progress
interaction. -/
theorem primaryId_invariant_failing_input :
    undoDuringMarqueeRun.primaryId = some "B" ∧
    activeSelectionIds undoDuringMarqueeRun = [] := by
  exact ⟨by decide, by decide⟩

/-! ## Claim C1: supporting lemmas for the edit-sequence invariant -/

theorem foldl_max_init (l : List DrawingEntity) :
    ∀ a : Int, a ≤ l.foldl (fun m e => max m e.zIndex) a := by
  induction l with
  | nil => intro a; exact Int.le_refl a
  | cons x rest ih =>
    intro a
    exact le_trans (le_max_left a x.zIndex) (ih (max a x.zIndex))

theorem highestZ_ge (l : List DrawingEntity) :
    ∀ e ∈ l, e.zIndex ≤ highestZ l := by
  unfold highestZ
  generalize (-1 : Int) = a
  induction l generalizing a with
  | nil => simp
  | cons x rest ih =>
    intro e he
    rcases List.mem_cons.mp he with rfl | he
    · exact le_trans (le_max_right a e.zIndex) (foldl_max_init rest (max a e.zIndex))
    · exact ih (max a x.zIndex) e he

theorem zStrict_append_top (l : List DrawingEntity) (x : DrawingEntity)
    (hl : zStrict l) (hx : ∀ e ∈ l, e.zIndex < x.zIndex) : zStrict (l ++ [x]) := by
  rw [zStrict, List.pairwise_append]
  exact ⟨hl, List.pairwise_singleton _ _, fun a ha b hb => by
    rw [List.mem_singleton.mp hb]; exact hx a ha⟩

theorem forall2_touch_refl (t : Int) (l : List DrawingEntity) :
    List.Forall₂ (touchRel t) l l :=
  List.forall₂_same.mpr fun _ _ => Or.inl rfl

theorem touch_trans {t : Int} {x y z : DrawingEntity}
    (h1 : touchRel t x y) (h2 : touchRel t y z) : touchRel t x z := by
  rcases h1 with rfl | ⟨hi1, hz1, ht1⟩
  · exact h2
  · rcases h2 with rfl | ⟨hi2, hz2, ht2⟩
    · exact Or.inr ⟨hi1, hz1, ht1⟩
    · exact Or.inr ⟨hi2.trans hi1, hz2.trans hz1, ht2⟩

theorem forall2_touch_trans {t : Int} :
    ∀ {l1 l2 l3 : List DrawingEntity}, List.Forall₂ (touchRel t) l1 l2 →
      List.Forall₂ (touchRel t) l2 l3 → List.Forall₂ (touchRel t) l1 l3 := by
  intro l1 l2 l3 h1 h2
  induction h1 generalizing l3 with
  | nil => cases h2; exact List.Forall₂.nil
  | cons hxy htail ih =>
    cases h2 with
    | cons hyz htail2 => exact List.Forall₂.cons (touch_trans hxy hyz) (ih htail2)

theorem mapUpdate_touch (t : Int) (l : List DrawingEntity) (id : String)
    (f : DrawingEntity → DrawingEntity)
    (hf : ∀ x, (f x).id = x.id ∧ (f x).zIndex = x.zIndex ∧ (f x).updatedAt = t) :
    List.Forall₂ (touchRel t) l (mapUpdate l id f) := by
  unfold mapUpdate
  rw [List.forall₂_map_right_iff]
  refine List.forall₂_same.mpr fun x _ => ?_
  by_cases h : x.id = id
  · rw [if_pos h]
    exact Or.inr (hf x)
  · rw [if_neg h]
    exact Or.inl rfl

theorem forall2_exists_left {r : DrawingEntity → DrawingEntity → Prop} :
    ∀ {as bs : List DrawingEntity}, List.Forall₂ r as bs → ∀ b ∈ bs, ∃ a ∈ as, r a b := by
  intro as bs h
  induction h with
  | nil => simp
  | cons hxy htail ih =>
    intro b hb
    rcases List.mem_cons.mp hb with rfl | hb
    · exact ⟨_, List.mem_cons_self _ _, hxy⟩
    · obtain ⟨a, ha, hr⟩ := ih b hb
      exact ⟨a, List.mem_cons_of_mem _ ha, hr⟩

theorem touch_zStrict {t : Int} :
    ∀ {l l' : List DrawingEntity}, List.Forall₂ (touchRel t) l l' → zStrict l → zStrict l' := by
  intro l l' h
  induction h with
  | nil => intro _; exact List.Pairwise.nil
  | cons hxy htail ih =>
    intro hp
    rcases hp with _ | ⟨ha, hp⟩
    refine List.Pairwise.cons ?_ (ih hp)
    intro y' hy'
    obtain ⟨x', hx', hr⟩ := forall2_exists_left htail y' hy'
    have hz' : y'.zIndex = x'.zIndex := by
      rcases hr with rfl | ⟨_, hz, _⟩
      · rfl
      · exact hz
    have hzh : ∀ a b, touchRel t a b → b.zIndex = a.zIndex := by
      intro a b hab
      rcases hab with rfl | ⟨_, hz, _⟩
      · rfl
      · exact hz
    rw [hzh _ _ hxy, hz']
    exact ha x' hx'

theorem touch_liveIds {t : Int} :
    ∀ {l l' : List DrawingEntity}, List.Forall₂ (touchRel t) l l' →
      l'.map (fun e => e.id) = l.map fun e => e.id := by
  intro l l' h
  induction h with
  | nil => rfl
  | cons hxy htail ih =>
    have hid : ∀ a b, touchRel t a b → b.id = a.id := by
      intro a b hab
      rcases hab with rfl | ⟨hi, _, _⟩
      · rfl
      · exact hi
    simp [List.map_cons, ih, hid _ _ hxy]

theorem touch_below {t T : Int} (hT : T ≤ t) :
    ∀ {l l' : List DrawingEntity}, List.Forall₂ (touchRel t) l l' →
      entsBelow T l → entsBelow t l' := by
  intro l l' h
  induction h with
  | nil => intro _ e he; cases he
  | cons hxy htail ih =>
    intro hb e he
    have hbx := hb _ (List.mem_cons_self _ _)
    have hbt : entsBelow T _ := fun e' he' => hb e' (List.mem_cons_of_mem _ he')
    rcases List.mem_cons.mp he with rfl | he
    · rcases hxy with rfl | ⟨_, _, ht⟩
      · exact le_trans hbx hT
      · exact le_of_eq ht
    · exact ih hbt e he

theorem dragRel_refl {T : Int} {l : List DrawingEntity} (h : entsBelow T l) :
    dragRel T l l := by
  unfold dragRel
  refine List.forall₂_same.mpr fun x hx => ⟨rfl, rfl, h x hx, fun _ => rfl⟩

theorem dragRel_mono {T T' : Int} (hT : T ≤ T') :
    ∀ {bs cur : List DrawingEntity}, dragRel T bs cur → dragRel T' bs cur := by
  intro bs cur h
  induction h with
  | nil => exact List.Forall₂.nil
  | cons hxy htail ih =>
    exact List.Forall₂.cons ⟨hxy.1, hxy.2.1, le_trans hxy.2.2.1 hT, hxy.2.2.2⟩ ih

theorem dragRel_step {T t : Int} (hTt : T < t) :
    ∀ {bs cur cur' : List DrawingEntity}, dragRel T bs cur →
      List.Forall₂ (touchRel t) cur cur' → dragRel t bs cur' := by
  intro bs cur cur' h1 h2
  induction h1 generalizing cur' with
  | nil => cases h2; exact List.Forall₂.nil
  | cons hxy htail ih =>
    cases h2 with
    | cons hyz htail2 =>
      refine List.Forall₂.cons ?_ (ih htail2)
      obtain ⟨hid, hz, hb, hstable⟩ := hxy
      rcases hyz with rfl | ⟨hi2, hz2, ht2⟩
      · exact ⟨hid, hz, le_trans hb (le_of_lt hTt), hstable⟩
      · refine ⟨hid.trans hi2.symm, hz.trans hz2.symm, le_trans hb (le_of_lt hTt), ?_⟩
        intro heq
        rw [ht2] at heq
        exfalso
        omega

theorem dragRel_skip {T : Int} :
    ∀ {bs cur : List DrawingEntity}, dragRel T bs cur →
      styleChanged bs cur = false → cur = bs := by
  intro bs cur h
  induction h with
  | nil => intro _; rfl
  | @cons b c bs' cur' hxy htail ih =>
    intro hsc
    obtain ⟨hlen, hall⟩ := (styleChanged_false_iff _ _).mp hsc
    have hhead := hall (b, c) (by simp [List.zip_cons_cons])
    have htailsc : styleChanged bs' cur' = false := by
      rw [styleChanged_false_iff]
      refine ⟨by simpa using hlen, fun pr hpr => hall pr ?_⟩
      simp [List.zip_cons_cons, hpr]
    rw [ih htailsc, hxy.2.2.2 hhead.2.1.symm]

theorem mem_zip_right_of_mem :
    ∀ {a b : List DrawingEntity}, a.length = b.length → ∀ e ∈ b, ∃ x, (x, e) ∈ a.zip b := by
  intro a
  induction a with
  | nil =>
    intro b hlen e he
    cases b with
    | nil => cases he
    | cons y ys => cases hlen
  | cons x xs ih =>
    intro b hlen e he
    cases b with
    | nil => cases he
    | cons y ys =>
      rcases List.mem_cons.mp he with rfl | he
      · exact ⟨x, by simp [List.zip_cons_cons]⟩
      · obtain ⟨x', hx'⟩ := ih (by simpa using hlen) e he
        exact ⟨x', by simp [List.zip_cons_cons, hx']⟩

theorem zip_mem_left : ∀ {a b : List DrawingEntity} {pr : DrawingEntity × DrawingEntity},
    pr ∈ a.zip b → pr.1 ∈ a := by
  intro a
  induction a with
  | nil => intro b pr h; cases h
  | cons x xs ih =>
    intro b pr h
    cases b with
    | nil => cases h
    | cons y ys =>
      rw [List.zip_cons_cons] at h
      rcases List.mem_cons.mp h with rfl | h
      · exact List.mem_cons_self _ _
      · exact List.mem_cons_of_mem _ (ih h)

theorem styleChanged_true_of_fresh {T : Int} (a b : List DrawingEntity)
    (ha : entsBelow T a) (hb : ∃ e ∈ b, T < e.updatedAt) :
    styleChanged a b = true := by
  by_cases hlen : a.length = b.length
  · rw [← Bool.not_eq_false]
    intro hfalse
    obtain ⟨hl, hall⟩ := (styleChanged_false_iff a b).mp hfalse
    obtain ⟨e, he, hT⟩ := hb
    obtain ⟨x, hx⟩ := mem_zip_right_of_mem hlen e he
    have h1 : x.updatedAt = e.updatedAt := by simpa using (hall (x, e) hx).2.1
    have h2 := ha x (zip_mem_left hx)
    omega
  · exact styleChanged_true_of_length_ne a b hlen

theorem mem_activeSelectionIds_mapHas (s : EngineState) (id : String)
    (h : id ∈ activeSelectionIds s) : mapHas s.drawings id = true := by
  unfold activeSelectionIds at h
  have := (List.perm_insertionSort
    (fun a b => selKey s a ≤ selKey s b)
    (s.selection.filter fun id => mapHas s.drawings id)).mem_iff.mp h
  exact (List.mem_filter.mp this).2

theorem mapDelete_sublist (l : List DrawingEntity) (id : String) :
    (mapDelete l id).Sublist l :=
  List.filter_sublist l

theorem foldl_mapDelete_sublist (ids : List String) :
    ∀ l : List DrawingEntity, (ids.foldl mapDelete l).Sublist l := by
  induction ids with
  | nil => intro l; exact List.Sublist.refl l
  | cons id rest ih =>
    intro l
    exact (ih (mapDelete l id)).trans (mapDelete_sublist l id)

theorem mapDelete_length_lt (l : List DrawingEntity) (id : String)
    (h : mapHas l id = true) : (mapDelete l id).length < l.length := by
  unfold mapDelete
  obtain ⟨e, he, hid⟩ := List.any_eq_true.mp h
  refine List.length_filter_lt_length_iff_exists.mpr ⟨e, he, ?_⟩
  simp [of_decide_eq_true hid]

theorem builtin_normalize_none (t : String) (d : ToolDefinition)
    (h : builtinRegistry t = some d) : d.normalize = none := by
  unfold builtinRegistry at h
  have hmem := List.mem_of_find?_eq_some h
  fin_cases hmem <;> rfl

theorem sortedDrawings_congr {s1 s2 : EngineState} (h : s1.drawings = s2.drawings) :
    sortedDrawings s1 = sortedDrawings s2 := by
  unfold sortedDrawings
  rw [h]

theorem createDrawingEngine_CoreInv (popts : OptionsPatch) (T : Int) :
    CoreInv (createDrawingEngine popts) T := by
  unfold createDrawingEngine CoreInv
  dsimp only
  split <;>
    refine ⟨List.Pairwise.nil, ?_, ?_, rfl, rfl, rfl⟩ <;>
      first
        | exact fun e he => absurd he (List.not_mem_nil e)
        | exact fun f hf => by cases hf

theorem selectionSet_fields (s : EngineState) (ids : List String) :
    (selectionSet s ids).drawings = s.drawings ∧
    (selectionSet s ids).hist = s.hist ∧
    (selectionSet s ids).interaction = s.interaction ∧
    (selectionSet s ids).registry = s.registry := ⟨rfl, rfl, rfl, rfl⟩

theorem addSelection_fields (ids : List String) :
    ∀ s : EngineState,
      (addSelection s ids).drawings = s.drawings ∧
      (addSelection s ids).hist = s.hist ∧
      (addSelection s ids).interaction = s.interaction ∧
      (addSelection s ids).registry = s.registry := by
  induction ids with
  | nil => intro s; exact ⟨rfl, rfl, rfl, rfl⟩
  | cons id rest ih =>
    intro s
    unfold addSelection
    rw [List.foldl_cons]
    have := ih { s with
      selection := if mapHas s.drawings id then setAdd s.selection id else s.selection,
      primaryId := if mapHas s.drawings id then some id else s.primaryId }
    unfold addSelection at this
    by_cases h : mapHas s.drawings id = true
    · simpa [h] using this
    · simpa [h] using this

theorem removeSelection_fields (s : EngineState) (id : String) :
    (removeSelection s id).drawings = s.drawings ∧
    (removeSelection s id).hist = s.hist ∧
    (removeSelection s id).interaction = s.interaction ∧
    (removeSelection s id).registry = s.registry := by
  unfold removeSelection
  split <;> exact ⟨rfl, rfl, rfl, rfl⟩

theorem setToolOp_CoreInv (s : EngineState) (tool : String) (T : Int) (h : CoreInv s T) :
    CoreInv (setToolOp s tool) T ∧ (setToolOp s tool).drawings = s.drawings := by
  obtain ⟨h1, h2, h3, h4, h5, h6⟩ := h
  unfold setToolOp setToolE
  by_cases hr : (s.registry tool).isSome = false
  · rw [if_pos hr]
    exact ⟨⟨h1, h2, h3, h4, h5, h6⟩, rfl⟩
  · rw [if_neg hr]
    refine ⟨⟨h1, h2, ?_, h4, rfl, h6⟩, rfl⟩
    intro f hf
    rw [h3 f hf]
    exact sortedDrawings_congr rfl

theorem sortedDrawings_eq_self {s : EngineState} (h : zStrict s.drawings) :
    sortedDrawings s = s.drawings := by
  unfold sortedDrawings
  exact h.sort_eq

theorem entsBelow_mono {T t : Int} (hT : T ≤ t) {l : List DrawingEntity}
    (h : entsBelow T l) : entsBelow t l :=
  fun e he => le_trans (h e he) hT

theorem MidInv_of_CoreInv_samecore (s s' : EngineState) (T t : Int) (h : CoreInv s T)
    (hT : T ≤ t) (hd : s'.drawings = s.drawings) (hh : s'.hist = s.hist)
    (hr : s'.registry = s.registry)
    (hi : match s'.interaction with
          | .draggingSelection _ bs _ => bs = sortedDrawings s'
          | .creating tool _ _ _ _ _ bs _ => tool.normalize = none ∧ bs = sortedDrawings s'
          | _ => True) :
    MidInv s' t := by
  obtain ⟨h1, h2, h3, h4, h5, h6⟩ := h
  have hz : zStrict s'.drawings := hd ▸ h1
  have hb : entsBelow t s'.drawings := hd ▸ entsBelow_mono hT h2
  have hta : ∀ f, s'.hist.undoStack.head? = some f → f.after = sortedDrawings s' := by
    intro f hf
    rw [hh] at hf
    rw [h3 f hf]
    exact sortedDrawings_congr hd.symm
  refine ⟨hz, hb, by rw [hh]; exact h4, by rw [hr]; exact h6, ?_⟩
  cases hint : s'.interaction with
  | draggingSelection st bs origin =>
    rw [hint] at hi
    have hbs : bs = sortedDrawings s' := hi
    refine ⟨fun f hf => (hta f hf).trans hbs.symm, ?_⟩
    rw [hbs, sortedDrawings_eq_self hz]
    exact dragRel_refl hb
  | creating tool sa pt dx dy pts bs ph =>
    rw [hint] at hi
    have hn : tool.normalize = none ∧ bs = sortedDrawings s' := hi
    exact ⟨hn.1, hn.2, hta⟩
  | idle => exact hta
  | marquee st cur base => exact hta

theorem startDragSelection_cases (s : EngineState) (input : PointerInput) :
    startDragSelection s input = s ∨
    startDragSelection s input =
      { s with interaction :=
                 .draggingSelection (toPoint s.opts input) (sortedDrawings s)
                   ((activeSelectionIds s).filterMap (fun id =>
                     match mapGet s.drawings id with
                     | none => none
                     | some d => if d.locked then none else some (id, d.points))) } := by
  unfold startDragSelection
  dsimp only
  split
  · exact Or.inl rfl
  · exact Or.inr rfl

theorem cursor_hit_tail (s s1 : EngineState) (input : PointerInput) (t T : Int)
    (h : CoreInv s T) (hT : T < t)
    (hd : s1.drawings = s.drawings) (hh : s1.hist = s.hist) (hr : s1.registry = s.registry)
    (hi : s1.interaction = s.interaction)
    (cond : Prop) [Decidable cond] :
    MidInv (if cond then startDragSelection s1 input else { s1 with interaction := .idle }) t ∧
    liveIds (if cond then startDragSelection s1 input else { s1 with interaction := .idle }) =
      liveIds s := by
  have hidle : s1.interaction = .idle := hi.trans h.2.2.2.2.1
  split
  · rcases startDragSelection_cases s1 input with heq | heq <;> rw [heq]
    · refine ⟨MidInv_of_CoreInv_samecore s s1 T t h (le_of_lt hT) hd hh hr ?_, ?_⟩
      · rw [hidle]
        trivial
      · unfold liveIds
        rw [hd]
    · refine ⟨MidInv_of_CoreInv_samecore s _ T t h (le_of_lt hT) hd hh hr ?_, ?_⟩
      · dsimp only
        exact sortedDrawings_congr rfl
      · unfold liveIds
        dsimp only
        rw [hd]
  · refine ⟨MidInv_of_CoreInv_samecore s _ T t h (le_of_lt hT) hd hh hr trivial, ?_⟩
    unfold liveIds
    dsimp only
    rw [hd]

theorem pointerDown_MidInv (s : EngineState) (input : PointerInput) (t T : Int)
    (h : CoreInv s T) (hT : T < t) (halt : input.altKey = false) :
    MidInv (pointerDown s input t []) t ∧
    liveIds (pointerDown s input t []) = liveIds s := by
  unfold pointerDown
  dsimp only
  by_cases hc : s.activeTool = "cursor"
  · rw [if_pos hc]
    split
    · next hit hhit =>
      rw [halt]
      simp only [Bool.false_and, Bool.false_eq_true, if_false]
      cases hsh : input.shiftKey
      · simp only [Bool.false_eq_true, if_false, Bool.not_false, Bool.true_and]
        by_cases hmem : hit.id ∈ s.selection
        · rw [if_pos hmem]
          refine cursor_hit_tail s { s with lastViewport := input.viewport }
            input t T h hT rfl rfl rfl rfl _
        · rw [if_neg hmem]
          refine cursor_hit_tail s
            (selectionSet { s with lastViewport := input.viewport } [hit.id])
            input t T h hT ?_ ?_ ?_ ?_ _
          · exact (selectionSet_fields _ _).1
          · exact (selectionSet_fields _ _).2.1
          · exact (selectionSet_fields _ _).2.2.2
          · exact (selectionSet_fields _ _).2.2.1
      · simp only [if_true, Bool.not_true, Bool.false_and, Bool.false_eq_true, if_false]
        by_cases hmem : hit.id ∈ s.selection
        · rw [if_pos hmem]
          refine ⟨MidInv_of_CoreInv_samecore s _ T t h (le_of_lt hT)
            (removeSelection_fields _ _).1 (removeSelection_fields _ _).2.1
            (removeSelection_fields _ _).2.2.2 trivial, ?_⟩
          unfold liveIds
          dsimp only
          rw [(removeSelection_fields _ _).1]
        · rw [if_neg hmem]
          refine ⟨MidInv_of_CoreInv_samecore s _ T t h (le_of_lt hT)
            (addSelection_fields _ _).1 (addSelection_fields _ _).2.1
            (addSelection_fields _ _).2.2.2 trivial, ?_⟩
          unfold liveIds
          dsimp only
          rw [(addSelection_fields _ _).1]
    · next hhit =>
      cases hsh : input.shiftKey
      · simp only [Bool.false_eq_true, if_false]
        refine ⟨MidInv_of_CoreInv_samecore s _ T t h (le_of_lt hT) ?_ ?_ ?_ trivial, ?_⟩
        · exact (selectionSet_fields { s with lastViewport := input.viewport } []).1
        · exact (selectionSet_fields { s with lastViewport := input.viewport } []).2.1
        · exact (selectionSet_fields { s with lastViewport := input.viewport } []).2.2.2
        · unfold liveIds
          dsimp only
          rw [(selectionSet_fields { s with lastViewport := input.viewport } []).1]
      · simp only [if_true]
        exact ⟨MidInv_of_CoreInv_samecore s _ T t h (le_of_lt hT) rfl rfl rfl trivial, rfl⟩
  · rw [if_neg hc]
    split
    · next hreg =>
      refine ⟨MidInv_of_CoreInv_samecore s _ T t h (le_of_lt hT) rfl rfl rfl ?_, rfl⟩
      dsimp only
      rw [h.2.2.2.2.1]
      trivial
    · next tool hreg =>
      refine ⟨MidInv_of_CoreInv_samecore s _ T t h (le_of_lt hT) rfl rfl rfl ?_, rfl⟩
      unfold startCreating
      dsimp only
      exact ⟨builtin_normalize_none s.activeTool tool (h.2.2.2.2.2 ▸ hreg),
        sortedDrawings_congr rfl⟩

theorem mapHas_eq_false_iff (l : List DrawingEntity) (id : String) :
    mapHas l id = false ↔ id ∉ l.map fun e => e.id := by
  unfold mapHas
  constructor
  · intro h hm
    obtain ⟨e, he, hid⟩ := List.mem_map.mp hm
    have hany : (l.any fun e => decide (e.id = id)) = true :=
      List.any_eq_true.mpr ⟨e, he, by simp [hid]⟩
    rw [h] at hany
    cases hany
  · intro h
    cases hb : l.any fun e => decide (e.id = id) with
    | false => rfl
    | true =>
      obtain ⟨e, he, hid⟩ := List.any_eq_true.mp hb
      exact absurd (List.mem_map.mpr ⟨e, he, of_decide_eq_true hid⟩) h

theorem push_head (limit : Nat) (fr : HistoryFrame) (hst : HistoryState) :
    ∀ f, (HistoryStore.push limit fr hst).undoStack.head? = some f → f = fr := by
  intro f hf
  unfold HistoryStore.push at hf
  dsimp only at hf
  split at hf
  · cases hu : hst.undoStack with
    | nil =>
      rw [hu] at hf
      simp only [List.dropLast_single, List.head?_nil] at hf
      cases hf
    | cons g rest =>
      rw [hu, List.dropLast_cons₂, List.head?_cons, Option.some.injEq] at hf
      exact hf.symm
  · rw [List.head?_cons, Option.some.injEq] at hf
    exact hf.symm

theorem dragStep_fold (delta : DrawingPoint) (t : Int) :
    ∀ (prs : List (String × List DrawingPoint)) (acc : EngineState),
      List.Forall₂ (touchRel t) acc.drawings
        (List.foldl (dragStep delta t) acc prs).drawings ∧
      (List.foldl (dragStep delta t) acc prs).hist = acc.hist ∧
      (List.foldl (dragStep delta t) acc prs).interaction = acc.interaction ∧
      (List.foldl (dragStep delta t) acc prs).registry = acc.registry := by
  intro prs
  induction prs with
  | nil => intro acc; exact ⟨forall2_touch_refl t _, rfl, rfl, rfl⟩
  | cons pr rest ih =>
    intro acc
    rw [List.foldl_cons]
    obtain ⟨h1, h2, h3, h4⟩ := ih (dragStep delta t acc pr)
    have hstep : List.Forall₂ (touchRel t) acc.drawings (dragStep delta t acc pr).drawings ∧
        (dragStep delta t acc pr).hist = acc.hist ∧
        (dragStep delta t acc pr).interaction = acc.interaction ∧
        (dragStep delta t acc pr).registry = acc.registry := by
      unfold dragStep
      cases mapGet acc.drawings pr.1 with
      | none => exact ⟨forall2_touch_refl t _, rfl, rfl, rfl⟩
      | some d =>
        dsimp only
        split
        · exact ⟨forall2_touch_refl t _, rfl, rfl, rfl⟩
        · exact ⟨mapUpdate_touch t _ _ _ (fun x => ⟨rfl, rfl, rfl⟩), rfl, rfl, rfl⟩
    exact ⟨forall2_touch_trans hstep.1 h1, h2.trans hstep.2.1,
      h3.trans hstep.2.2.1, h4.trans hstep.2.2.2⟩

theorem nudgeStep_fold (delta : DrawingPoint) (t : Int) :
    ∀ (ids : List String) (acc : EngineState),
      List.Forall₂ (touchRel t) acc.drawings
        (List.foldl (nudgeStep delta t) acc ids).drawings ∧
      (List.foldl (nudgeStep delta t) acc ids).hist = acc.hist ∧
      (List.foldl (nudgeStep delta t) acc ids).interaction = acc.interaction ∧
      (List.foldl (nudgeStep delta t) acc ids).registry = acc.registry ∧
      (List.foldl (nudgeStep delta t) acc ids).opts = acc.opts := by
  intro ids
  induction ids with
  | nil => intro acc; exact ⟨forall2_touch_refl t _, rfl, rfl, rfl, rfl⟩
  | cons id rest ih =>
    intro acc
    rw [List.foldl_cons]
    obtain ⟨h1, h2, h3, h4, h5⟩ := ih (nudgeStep delta t acc id)
    have hstep : List.Forall₂ (touchRel t) acc.drawings (nudgeStep delta t acc id).drawings ∧
        (nudgeStep delta t acc id).hist = acc.hist ∧
        (nudgeStep delta t acc id).interaction = acc.interaction ∧
        (nudgeStep delta t acc id).registry = acc.registry ∧
        (nudgeStep delta t acc id).opts = acc.opts := by
      unfold nudgeStep
      cases mapGet acc.drawings id with
      | none => exact ⟨forall2_touch_refl t _, rfl, rfl, rfl, rfl⟩
      | some d =>
        dsimp only
        split
        · exact ⟨forall2_touch_refl t _, rfl, rfl, rfl, rfl⟩
        · exact ⟨mapUpdate_touch t _ _ _ (fun x => ⟨rfl, rfl, rfl⟩), rfl, rfl, rfl, rfl⟩
    exact ⟨forall2_touch_trans hstep.1 h1, h2.trans hstep.2.1,
      h3.trans hstep.2.2.1, h4.trans hstep.2.2.2.1, h5.trans hstep.2.2.2.2⟩

theorem MidInv_dragging (s' : EngineState) (t : Int) (start : DrawingPoint)
    (bs : List DrawingEntity) (origin : List (String × List DrawingPoint))
    (hz : zStrict s'.drawings) (hb : entsBelow t s'.drawings)
    (hre : s'.hist.redoStack = []) (hreg : s'.registry = builtinRegistry)
    (hint : s'.interaction = .draggingSelection start bs origin)
    (hfr : ∀ f, s'.hist.undoStack.head? = some f → f.after = bs)
    (hdr : dragRel t bs s'.drawings) : MidInv s' t := by
  refine ⟨hz, hb, hre, hreg, ?_⟩
  rw [hint]
  exact ⟨hfr, hdr⟩

theorem pointerMove_MidInv (s : EngineState) (input : PointerInput) (t T : Int)
    (h : MidInv s T) (hT : T < t) :
    MidInv (pointerMove s input t) t ∧ liveIds (pointerMove s input t) = liveIds s := by
  obtain ⟨h1, h2, h3, h4, h5⟩ := h
  unfold pointerMove
  dsimp only
  cases hint : s.interaction with
  | creating tool sa pt dx dy pts bs ph =>
    dsimp only
    rw [hint] at h5
    have hc : tool.normalize = none ∧ bs = sortedDrawings s ∧
        (∀ f, s.hist.undoStack.head? = some f → f.after = sortedDrawings s) := h5
    have key : ∀ (P : List DrawingPoint) (B : Bool),
        MidInv { s with
          interaction := .creating tool sa pt dx dy P bs B,
          lastViewport := input.viewport } t :=
      fun P B =>
        ⟨h1, entsBelow_mono (le_of_lt hT) h2, h3, h4,
          hc.1, hc.2.1.trans (sortedDrawings_congr rfl), fun f hf =>
            (hc.2.2 f hf).trans (sortedDrawings_congr rfl)⟩
    by_cases hsp : (ph && !(decide (s.opts.holdToDrawMs ≤ t - sa) ||
        hypotGePx (input.x - dx) (input.y - dy) s.opts.holdMoveTolerancePx)) = true
    · rw [if_pos hsp]
      exact ⟨key pts true, rfl⟩
    · rw [if_neg hsp]
      exact ⟨key _ false, rfl⟩
  | draggingSelection start bs origin =>
    dsimp only
    rw [hint] at h5
    have hc : (∀ f, s.hist.undoStack.head? = some f → f.after = bs) ∧
        dragRel T bs s.drawings := h5
    obtain ⟨hfold, hh, hi, hr⟩ := dragStep_fold
      ⟨(toPoint s.opts input).logical - start.logical,
       (toPoint s.opts input).price - start.price⟩ t origin
      { s with interaction := .draggingSelection start bs origin,
               lastViewport := input.viewport }
    refine ⟨MidInv_dragging _ t start bs origin
      (touch_zStrict hfold h1) (touch_below (le_of_lt hT) hfold h2)
      (by rw [hh]; exact h3) (by rw [hr]; exact h4)
      hi (fun f hf => hc.1 f (by rw [hh] at hf; exact hf))
      (dragRel_step hT hc.2 hfold), ?_⟩
    exact touch_liveIds hfold
  | marquee start cur base =>
    dsimp only
    rw [hint] at h5
    have hc : ∀ f, s.hist.undoStack.head? = some f → f.after = sortedDrawings s := h5
    exact ⟨⟨h1, entsBelow_mono (le_of_lt hT) h2, h3, h4, fun f hf =>
      (hc f hf).trans (sortedDrawings_congr rfl)⟩, rfl⟩
  | idle =>
    dsimp only
    rw [hint] at h5
    have hc : ∀ f, s.hist.undoStack.head? = some f → f.after = sortedDrawings s := h5
    exact ⟨⟨h1, entsBelow_mono (le_of_lt hT) h2, h3, h4, fun f hf =>
      (hc f hf).trans (sortedDrawings_congr rfl)⟩, rfl⟩

theorem movesFold_MidInv :
    ∀ (moves : List (PointerInput × Int)) (s : EngineState) (T : Int), MidInv s T →
      timesChainB T (moves.map fun m => m.2) = true →
      MidInv (moves.foldl (fun acc m => pointerMove acc m.1 m.2) s)
        ((moves.map fun m => m.2).getLastD T) ∧
      liveIds (moves.foldl (fun acc m => pointerMove acc m.1 m.2) s) = liveIds s := by
  intro moves
  induction moves with
  | nil => intro s T h _; exact ⟨h, rfl⟩
  | cons m rest ih =>
    intro s T h hchain
    rw [List.map_cons] at hchain
    unfold timesChainB at hchain
    simp only [Bool.and_eq_true, decide_eq_true_eq] at hchain
    obtain ⟨hmid, hlive⟩ := pointerMove_MidInv s m.1 m.2 T h hchain.1
    obtain ⟨hmid2, hlive2⟩ := ih (pointerMove s m.1 m.2) m.2 hmid hchain.2
    rw [List.foldl_cons, List.map_cons, List.getLastD_cons]
    exact ⟨hmid2, hlive2.trans hlive⟩

theorem timesChainB_append_last (a : Int) :
    ∀ (l : List Int) (T : Int), timesChainB T (l ++ [a]) = true →
      timesChainB T l = true ∧ l.getLastD T < a := by
  intro l
  induction l with
  | nil =>
    intro T h
    unfold timesChainB at h
    simp only [List.nil_append, Bool.and_eq_true, decide_eq_true_eq] at h
    exact ⟨rfl, h.1⟩
  | cons x xs ih =>
    intro T h
    rw [List.cons_append] at h
    unfold timesChainB at h
    simp only [Bool.and_eq_true, decide_eq_true_eq] at h
    obtain ⟨h3, h4⟩ := ih x h.2
    refine ⟨?_, by rw [List.getLastD_cons]; exact h4⟩
    unfold timesChainB
    simp only [Bool.and_eq_true, decide_eq_true_eq]
    exact ⟨h.1, h3⟩

theorem commit_CoreInv (s : EngineState) (tool : ToolDefinition) (pts : List DrawingPoint)
    (bs : List DrawingEntity) (newId : String) (t T : Int)
    (hz : zStrict s.drawings) (hb : entsBelow T s.drawings) (hT : T < t)
    (hredo : s.hist.redoStack = []) (hreg : s.registry = builtinRegistry)
    (hfr : ∀ f, s.hist.undoStack.head? = some f → f.after = sortedDrawings s)
    (hbs : bs = sortedDrawings s)
    (hnorm : tool.normalize = none)
    (hfresh : mapHas s.drawings newId = false) :
    CoreInv { commitNewEntity s tool pts bs newId t with interaction := .idle } t := by
  unfold commitNewEntity
  dsimp only
  split
  · exact ⟨hz, entsBelow_mono (le_of_lt hT) hb,
      fun f hf => (hfr f hf).trans (sortedDrawings_congr rfl), hredo, rfl, hreg⟩
  · have happ : applyNormalize tool (newEntity s tool pts newId t) =
        newEntity s tool pts newId t := by
      unfold applyNormalize
      rw [hnorm]
    have hset : mapSet s.drawings (applyNormalize tool (newEntity s tool pts newId t)) =
        s.drawings ++ [applyNormalize tool (newEntity s tool pts newId t)] := by
      rw [happ]
      exact mapSet_of_fresh s.drawings _ hfresh
    have hz2 : zStrict (s.drawings ++ [applyNormalize tool (newEntity s tool pts newId t)]) := by
      rw [happ]
      refine zStrict_append_top _ _ hz fun e he => ?_
      have := highestZ_ge s.drawings e he
      show e.zIndex < highestZ s.drawings + 1
      omega
    have hlen : (s.drawings ++ [applyNormalize tool (newEntity s tool pts newId t)]).length =
        s.drawings.length + 1 := by
      rw [List.length_append, List.length_singleton]
    have hpush : styleChanged bs
        (sortedDrawings (selectionSet
          { s with drawings :=
                     mapSet s.drawings (applyNormalize tool (newEntity s tool pts newId t)) }
          [(applyNormalize tool (newEntity s tool pts newId t)).id])) = true := by
      refine styleChanged_true_of_length_ne _ _ ?_
      rw [hbs, sortedDrawings_length, sortedDrawings_length, (selectionSet_fields _ _).1]
      dsimp only
      rw [hset, hlen]
      omega
    unfold pushHistory
    rw [if_neg (by rw [hpush]; intro hcon; cases hcon)]
    refine ⟨?_, ?_, ?_, rfl, rfl, hreg⟩
    · show zStrict (mapSet s.drawings (applyNormalize tool (newEntity s tool pts newId t)))
      rw [hset]
      exact hz2
    · show entsBelow t (mapSet s.drawings (applyNormalize tool (newEntity s tool pts newId t)))
      rw [hset]
      intro e he
      rcases List.mem_append.mp he with he | he
      · exact le_trans (hb e he) (le_of_lt hT)
      · rw [List.mem_singleton.mp he, happ]
        exact le_refl t
    · intro f hf
      have hfr2 := push_head s.opts.historyLimit _ _ f hf
      rw [hfr2]
      exact sortedDrawings_congr rfl

theorem pointerUp_CoreInv (s : EngineState) (input : PointerInput) (t T : Int)
    (newId : String) (h : MidInv s T) (hT : T < t)
    (hfresh : mapHas s.drawings newId = false) :
    CoreInv (pointerUp s input t newId) t := by
  obtain ⟨h1, h2, h3, h4, h5⟩ := h
  unfold pointerUp
  dsimp only
  cases hint : s.interaction with
  | idle =>
    dsimp only
    rw [hint] at h5
    have hc : ∀ f, s.hist.undoStack.head? = some f → f.after = sortedDrawings s := h5
    exact ⟨h1, entsBelow_mono (le_of_lt hT) h2,
      fun f hf => (hc f hf).trans (sortedDrawings_congr rfl), h3, rfl, h4⟩
  | marquee start cur base =>
    dsimp only
    rw [hint] at h5
    have hc : ∀ f, s.hist.undoStack.head? = some f → f.after = sortedDrawings s := h5
    exact ⟨h1, entsBelow_mono (le_of_lt hT) h2,
      fun f hf => (hc f hf).trans (sortedDrawings_congr rfl), h3, rfl, h4⟩
  | draggingSelection start bs origin =>
    dsimp only
    rw [hint] at h5
    have hc : (∀ f, s.hist.undoStack.head? = some f → f.after = bs) ∧
        dragRel T bs s.drawings := h5
    unfold pushHistory
    split
    · next hsc =>
      have heq : s.drawings = bs := by
        refine dragRel_skip hc.2 ?_
        have hsv : sortedDrawings { s with
            interaction := InternalInteraction.draggingSelection start bs origin,
            lastViewport := input.viewport } = s.drawings := sortedDrawings_eq_self h1
        rw [hsv] at hsc
        exact hsc
      refine ⟨h1, entsBelow_mono (le_of_lt hT) h2, ?_, h3, rfl, h4⟩
      intro f hf
      refine (hc.1 f hf).trans ?_
      refine heq.symm.trans ?_
      exact (sortedDrawings_eq_self h1).symm
    · refine ⟨h1, entsBelow_mono (le_of_lt hT) h2, ?_, rfl, rfl, h4⟩
      intro f hf
      have hffr := push_head s.opts.historyLimit _ _ f hf
      rw [hffr]
      exact sortedDrawings_congr rfl
  | creating tool sa pt dx dy pts bs ph =>
    dsimp only
    rw [hint] at h5
    have hc : tool.normalize = none ∧ bs = sortedDrawings s ∧
        (∀ f, s.hist.undoStack.head? = some f → f.after = sortedDrawings s) := h5
    have hdisc : CoreInv { s with interaction := .idle, lastViewport := input.viewport } t :=
      ⟨h1, entsBelow_mono (le_of_lt hT) h2,
       fun f hf => (hc.2.2 f hf).trans (sortedDrawings_congr rfl), h3, rfl, h4⟩
    unfold finishCreating
    dsimp only
    split
    · exact hdisc
    · split
      · split
        · exact hdisc
        · refine commit_CoreInv _ _ _ _ _ _ T h1 h2 hT h3 h4 ?_ ?_ hc.1 hfresh
          · exact fun f hf => (hc.2.2 f hf).trans (sortedDrawings_congr rfl)
          · exact hc.2.1.trans (sortedDrawings_congr rfl)
      · split
        · refine commit_CoreInv _ _ _ _ _ _ T h1 h2 hT h3 h4 ?_ ?_ hc.1 hfresh
          · exact fun f hf => (hc.2.2 f hf).trans (sortedDrawings_congr rfl)
          · exact hc.2.1.trans (sortedDrawings_congr rfl)
        · split
          · exact hdisc
          · refine commit_CoreInv _ _ _ _ _ _ T h1 h2 hT h3 h4 ?_ ?_ hc.1 hfresh
            · exact fun f hf => (hc.2.2 f hf).trans (sortedDrawings_congr rfl)
            · exact hc.2.1.trans (sortedDrawings_congr rfl)

theorem keyboardMoveSelection_CoreInv (s : EngineState) (dx dy : Co) (t T : Int)
    (h : CoreInv s T) (hT : T < t) : CoreInv (keyboardMoveSelection s dx dy t) t := by
  obtain ⟨h1, h2, h3, h4, h5, h6⟩ := h
  unfold keyboardMoveSelection
  dsimp only
  split
  · exact ⟨h1, entsBelow_mono (le_of_lt hT) h2, h3, h4, h5, h6⟩
  · obtain ⟨hfold, hh, hi, hr, ho⟩ := nudgeStep_fold
      ⟨dx * s.lastViewport.logicalPerPixel, dy * s.lastViewport.pricePerPixel⟩ t
      (activeSelectionIds s) s
    have hz1 : zStrict (List.foldl
        (nudgeStep ⟨dx * s.lastViewport.logicalPerPixel, dy * s.lastViewport.pricePerPixel⟩ t)
        s (activeSelectionIds s)).drawings := touch_zStrict hfold h1
    have hdr := dragRel_step hT (dragRel_refl h2) hfold
    unfold pushHistory
    split
    · next hsc =>
      have e1 : sortedDrawings s = s.drawings := sortedDrawings_eq_self h1
      have e2 : sortedDrawings (List.foldl
          (nudgeStep ⟨dx * s.lastViewport.logicalPerPixel, dy * s.lastViewport.pricePerPixel⟩ t)
          s (activeSelectionIds s)) = _ := sortedDrawings_eq_self hz1
      rw [e1, e2] at hsc
      have heq := dragRel_skip hdr hsc
      refine ⟨hz1, touch_below (le_of_lt hT) hfold h2, ?_, ?_, hi.trans h5, hr.trans h6⟩
      · intro f hf
        rw [hh] at hf
        exact (h3 f hf).trans (e1.trans (heq.symm.trans e2.symm))
      · rw [hh]
        exact h4
    · refine ⟨hz1, touch_below (le_of_lt hT) hfold h2, ?_, rfl, hi.trans h5, hr.trans h6⟩
      intro f hf
      rw [push_head _ _ _ f hf]
      exact sortedDrawings_congr rfl

theorem deleteSelectionOp_CoreInv (s : EngineState) (t T : Int)
    (h : CoreInv s T) (hT : T < t) : CoreInv (deleteSelectionOp s t) t := by
  obtain ⟨h1, h2, h3, h4, h5, h6⟩ := h
  unfold deleteSelectionOp
  dsimp only
  split
  · exact ⟨h1, entsBelow_mono (le_of_lt hT) h2, h3, h4, h5, h6⟩
  · next hne =>
    have hsub := foldl_mapDelete_sublist (activeSelectionIds s) s.drawings
    have hlt : ((activeSelectionIds s).foldl mapDelete s.drawings).length <
        s.drawings.length := by
      cases hids : activeSelectionIds s with
      | nil => rw [hids] at hne; exact absurd rfl hne
      | cons i rest =>
        have hhas : mapHas s.drawings i = true :=
          mem_activeSelectionIds_mapHas s i (by rw [hids]; exact List.mem_cons_self _ _)
        calc ((i :: rest).foldl mapDelete s.drawings).length
            = (rest.foldl mapDelete (mapDelete s.drawings i)).length := by
              rw [List.foldl_cons]
          _ ≤ (mapDelete s.drawings i).length :=
              (foldl_mapDelete_sublist rest _).length_le
          _ < s.drawings.length := mapDelete_length_lt _ _ hhas
    unfold pushHistory
    rw [if_neg ?hcond]
    case hcond =>
      rw [styleChanged_true_of_length_ne _ _ ?_]
      · intro hcon; cases hcon
      · rw [sortedDrawings_length, sortedDrawings_length, (selectionSet_fields _ _).1]
        dsimp only
        omega
    refine ⟨List.Pairwise.sublist hsub h1, ?_, ?_, rfl, rfl, h6⟩
    · intro e he
      exact le_trans (h2 e (hsub.subset he)) (le_of_lt hT)
    · intro f hf
      rw [push_head _ _ _ f hf]
      exact sortedDrawings_congr rfl

theorem keyDown_nudge_CoreInv (s : EngineState) (dir : NudgeDir) (t T : Int)
    (h : CoreInv s T) (hT : T < t) :
    CoreInv (keyDown s (nudgeInput dir) t []) t := by
  cases dir
  case left =>
    have e : keyDown s (nudgeInput .left) t [] = keyboardMoveSelection s (-1) 0 t := rfl
    rw [e]
    exact keyboardMoveSelection_CoreInv s (-1) 0 t T h hT
  case right =>
    have e : keyDown s (nudgeInput .right) t [] = keyboardMoveSelection s 1 0 t := rfl
    rw [e]
    exact keyboardMoveSelection_CoreInv s 1 0 t T h hT
  case up =>
    have e : keyDown s (nudgeInput .up) t [] = keyboardMoveSelection s 0 (-1) t := rfl
    rw [e]
    exact keyboardMoveSelection_CoreInv s 0 (-1) t T h hT
  case down =>
    have e : keyDown s (nudgeInput .down) t [] = keyboardMoveSelection s 0 1 t := rfl
    rw [e]
    exact keyboardMoveSelection_CoreInv s 0 1 t T h hT

theorem gesture_CoreInv (s : EngineState) (T : Int) (tool : String) (down : PointerInput)
    (tDown : Int) (moves : List (PointerInput × Int)) (up : PointerInput) (tUp : Int)
    (newId : String) (h : CoreInv s T)
    (hchain : timesChainB T (editTimes (.gesture tool down tDown moves up tUp newId)) = true)
    (hvalid : editValidB s (.gesture tool down tDown moves up tUp newId) = true) :
    CoreInv (applyEdit s (.gesture tool down tDown moves up tUp newId))
      ((editTimes (.gesture tool down tDown moves up tUp newId)).getLastD T) := by
  have hv := hvalid
  unfold editValidB at hv
  simp only [Bool.and_eq_true, Bool.not_eq_true', decide_eq_false_iff_not] at hv
  have hch := hchain
  rw [show editTimes (EditOp.gesture tool down tDown moves up tUp newId) =
      (tDown :: moves.map fun m => m.2) ++ [tUp] from rfl] at hch
  obtain ⟨hchainCons, hlast⟩ :=
    timesChainB_append_last tUp (tDown :: moves.map fun m => m.2) T hch
  rw [List.getLastD_cons] at hlast
  rw [show (∀ (x : Int) (l : List Int),
      timesChainB T (x :: l) = (decide (T < x) && timesChainB x l)) from
      fun x l => rfl] at hchainCons
  simp only [Bool.and_eq_true, decide_eq_true_eq] at hchainCons
  obtain ⟨hTd, hchainMoves⟩ := hchainCons
  obtain ⟨hst, hsd⟩ := setToolOp_CoreInv s tool T h
  obtain ⟨hmidD, hliveD⟩ := pointerDown_MidInv (setToolOp s tool) down tDown T hst hTd hv.1
  obtain ⟨hmidM, hliveM⟩ :=
    movesFold_MidInv moves (pointerDown (setToolOp s tool) down tDown []) tDown hmidD
      hchainMoves
  have hliveTool : liveIds (setToolOp s tool) = liveIds s := by
    unfold liveIds
    rw [hsd]
  have hfresh : mapHas (moves.foldl (fun acc m => pointerMove acc m.1 m.2)
      (pointerDown (setToolOp s tool) down tDown [])).drawings newId = false := by
    refine (mapHas_eq_false_iff _ _).mpr ?_
    intro hm
    have hm2 : newId ∈ liveIds (moves.foldl (fun acc m => pointerMove acc m.1 m.2)
        (pointerDown (setToolOp s tool) down tDown [])) := hm
    rw [hliveM, hliveD, hliveTool] at hm2
    exact hv.2 hm2
  have htime : (editTimes (EditOp.gesture tool down tDown moves up tUp newId)).getLastD T =
      tUp := by
    rw [show editTimes (EditOp.gesture tool down tDown moves up tUp newId) =
        (tDown :: moves.map fun m => m.2) ++ [tUp] from rfl,
      List.getLastD_concat]
  rw [htime]
  exact pointerUp_CoreInv _ up tUp ((moves.map fun m => m.2).getLastD tDown) newId hmidM
    hlast hfresh

theorem editPres (s : EngineState) (T : Int) (op : EditOp) (h : CoreInv s T)
    (hchain : timesChainB T (editTimes op) = true) (hvalid : editValidB s op = true) :
    CoreInv (applyEdit s op) ((editTimes op).getLastD T) := by
  cases op with
  | gesture tool down tDown moves up tUp newId =>
    exact gesture_CoreInv s T tool down tDown moves up tUp newId h hchain hvalid
  | nudge dir t =>
    have hch := hchain
    unfold editTimes timesChainB at hch
    simp only [Bool.and_eq_true, decide_eq_true_eq] at hch
    exact keyDown_nudge_CoreInv s dir t T h hch.1
  | del t =>
    have hch := hchain
    unfold editTimes timesChainB at hch
    simp only [Bool.and_eq_true, decide_eq_true_eq] at hch
    exact deleteSelectionOp_CoreInv s t T h hch.1

theorem runPres : ∀ (ops : List EditOp) (s : EngineState) (T : Int), CoreInv s T →
    validEditsB s T ops = true → ∃ T', CoreInv (applyEdits s ops) T' := by
  intro ops
  induction ops with
  | nil => intro s T h _; exact ⟨T, h⟩
  | cons op rest ih =>
    intro s T h hv
    unfold validEditsB at hv
    simp only [Bool.and_eq_true] at hv
    unfold applyEdits
    rw [List.foldl_cons]
    exact ih (applyEdit s op) ((editTimes op).getLastD T)
      (editPres s T op h hv.1.1 hv.1.2) hv.2

theorem applyDrawings_drawings (s : EngineState) (entities : List DrawingEntity) :
    (applyDrawings s entities).drawings = normalizeZ entities :=
  (applyDrawings_fields s entities).1

theorem undo_redo_of_CoreInv (q : EngineState) (T : Int) (h : CoreInv q T) :
    normalizeZ ((redoOp (undoOp q)).drawings) = normalizeZ q.drawings ∧
    normalizeZ ((undoOp (redoOp (undoOp q))).drawings) =
      normalizeZ ((undoOp q).drawings) := by
  obtain ⟨h1, h2, h3, h4, h5, h6⟩ := h
  cases hu : q.hist.undoStack with
  | nil =>
    have hund : undoOp q = q := by
      unfold undoOp
      rw [hu]
    have hred : redoOp q = q := by
      unfold redoOp
      rw [h4]
    rw [hund, hred, hund]
    exact ⟨rfl, rfl⟩
  | cons f rest =>
    have hfa : f.after = sortedDrawings q := h3 f (by rw [hu]; rfl)
    have hund : undoOp q =
        applyDrawings { q with hist := { undoStack := rest, redoStack := [f] } }
          f.before := by
      unfold undoOp
      rw [hu, h4]
    have huh : (applyDrawings { q with hist := { undoStack := rest, redoStack := [f] } }
        f.before).hist = { undoStack := rest, redoStack := [f] } :=
      (applyDrawings_fields _ _).2.1
    have hredu : redoOp (applyDrawings
          { q with hist := { undoStack := rest, redoStack := [f] } } f.before) =
        applyDrawings
          { (applyDrawings { q with hist := { undoStack := rest, redoStack := [f] } }
              f.before) with
            hist := { undoStack := f :: rest, redoStack := [] } } f.after := by
      unfold redoOp
      rw [huh]
    have hrh : (applyDrawings
        { (applyDrawings { q with hist := { undoStack := rest, redoStack := [f] } }
            f.before) with
          hist := { undoStack := f :: rest, redoStack := [] } } f.after).hist =
        { undoStack := f :: rest, redoStack := [] } :=
      (applyDrawings_fields _ _).2.1
    have hund2 : undoOp (applyDrawings
          { (applyDrawings { q with hist := { undoStack := rest, redoStack := [f] } }
              f.before) with
            hist := { undoStack := f :: rest, redoStack := [] } } f.after) =
        applyDrawings
          { (applyDrawings
              { (applyDrawings { q with hist := { undoStack := rest, redoStack := [f] } }
                  f.before) with
                hist := { undoStack := f :: rest, redoStack := [] } } f.after) with
            hist := { undoStack := rest, redoStack := [f] } } f.before := by
      unfold undoOp
      rw [hrh]
    constructor
    · rw [hund, hredu, applyDrawings_drawings, hfa, normalizeZ_idem]
      exact normalizeZ_insertionSort q.drawings
    · rw [hund, hredu, hund2, applyDrawings_drawings, applyDrawings_drawings]

/-- **C1.** For every valid sequence of create (pointer-gesture), move (keyboard
nudge) and delete edit operations run from a fresh engine — valid meaning
strictly increasing `Date.now()` timestamps, really-fresh committed ids and no
alt-drag — `undo` then `redo` restores the entity map that was live before the
pair, and from the post-`undo` state (where the redo stack is non-empty)
`redo` then `undo` restores the post-`undo` entity map, in both cases up to
the deterministic `normalizeZ` zIndex renumbering (so same ids, same points,
same styles, in the same order). -/
theorem undo_redo_roundtrip (popts : OptionsPatch) (T0 : Int) (ops : List EditOp)
    (hvalid : validEditsB (createDrawingEngine popts) T0 ops = true) :
    normalizeZ ((redoOp (undoOp (applyEdits (createDrawingEngine popts) ops))).drawings) =
      normalizeZ ((applyEdits (createDrawingEngine popts) ops).drawings) ∧
    normalizeZ
        ((undoOp (redoOp (undoOp (applyEdits (createDrawingEngine popts) ops)))).drawings) =
      normalizeZ ((undoOp (applyEdits (createDrawingEngine popts) ops)).drawings) := by
  obtain ⟨T', h⟩ := runPres ops (createDrawingEngine popts) T0
    (createDrawingEngine_CoreInv popts T0) hvalid
  exact undo_redo_of_CoreInv _ T' h

/-- Counterexample to claim C1 as originally stated (no clock hypothesis):
after a create and a same-millisecond keyboard move, `undo` then `redo` does
not restore the live entity set — the moved points are lost — even up to
`normalizeZ` renumbering. -/
theorem undo_redo_roundtrip_counterexample :
    normalizeZ ((redoOp (undoOp sameMsRun)).drawings) ≠ normalizeZ sameMsRun.drawings := by
  decide

/-- Witness for C1: the concrete edit sequence `c1ops` is valid from a fresh
engine, and the round-trip equations hold for it. -/
theorem undo_redo_roundtrip_witness :
    validEditsB (createDrawingEngine {}) 0 c1ops = true ∧
    (normalizeZ ((redoOp (undoOp (applyEdits (createDrawingEngine {}) c1ops))).drawings) =
      normalizeZ ((applyEdits (createDrawingEngine {}) c1ops).drawings) ∧
    normalizeZ
        ((undoOp (redoOp (undoOp (applyEdits (createDrawingEngine {}) c1ops)))).drawings) =
      normalizeZ ((undoOp (applyEdits (createDrawingEngine {}) c1ops)).drawings)) :=
  ⟨by decide, undo_redo_roundtrip {} 0 c1ops (by decide)⟩
